import Mathlib

/-!
# Verification of the Finviz screening and idempotent-queue pipeline

A shallow embedding of `scripts/fetch_us_investment_ideas.py` together with
proofs about its components: the metric parsers, the row aggregator, the run
identifier validation, the queue writer, the cleanup routine and the main
control flow.  Python strings are modelled as Lean `String`; `str.strip` and
`str.upper` are modelled character-wise (ASCII case mapping, which covers the
ticker and metric data the script handles).  JSON values appearing in the
queue file are modelled at the value level, so `json.dumps`/`json.loads`
round-tripping of a written record is implicit.  Numeric values are modelled
as `ℚ` with an explicit model of the decimal forms accepted by Python
`float()`.
-/

namespace FetchIdeas

set_option allowUnsafeReducibility true
set_option maxRecDepth 100000
attribute [local semireducible] Rat.mul Rat.add Rat.sub Rat.div Rat.inv

/-! ## Python string primitives: `strip` and `upper` -/

/-- The ASCII lower/upper case pairs used by the model of `str.upper`. -/
def asciiUpperPairs : List (Char × Char) :=
  [ ('a', 'A'), ('b', 'B'), ('c', 'C'), ('d', 'D'), ('e', 'E'), ('f', 'F'),
    ('g', 'G'), ('h', 'H'), ('i', 'I'), ('j', 'J'), ('k', 'K'), ('l', 'L'),
    ('m', 'M'), ('n', 'N'), ('o', 'O'), ('p', 'P'), ('q', 'Q'), ('r', 'R'),
    ('s', 'S'), ('t', 'T'), ('u', 'U'), ('v', 'V'), ('w', 'W'), ('x', 'X'),
    ('y', 'Y'), ('z', 'Z') ]

/-- ASCII upper-casing of one character (model of Python case mapping). -/
def asciiUpper (c : Char) : Char :=
  match asciiUpperPairs.find? (fun p => p.1 = c) with
  | some p => p.2
  | none => c

/-- Model of Python `str.upper()`. -/
def pyUpper (s : String) : String :=
  ⟨s.data.map asciiUpper⟩

/-- Drop leading and trailing whitespace from a character list. -/
def trimChars (l : List Char) : List Char :=
  ((l.dropWhile Char.isWhitespace).reverse.dropWhile Char.isWhitespace).reverse

/-- Model of Python `str.strip()`. -/
def pyStrip (s : String) : String :=
  ⟨trimChars s.data⟩

/-- Model of Python `str.replace(c, "")` for a single character. -/
def pyRemoveChar (s : String) (c : Char) : String :=
  ⟨s.data.filter (fun d => d != c)⟩

/-! ## Association lists with Python dict semantics

Python dicts are insertion ordered; assigning to an existing key keeps its
position, assigning to a fresh key appends. -/

/-- Lookup in an insertion-ordered association list (`d.get(k)`). -/
def aget {α β : Type} [DecidableEq α] (m : List (α × β)) (k : α) : Option β :=
  (m.find? (fun e => decide (e.1 = k))).map (fun e => e.2)

/-- Assignment `d[k] = v` preserving insertion order. -/
def aset {α β : Type} [DecidableEq α] : List (α × β) → α → β → List (α × β)
  | [], k, v => [(k, v)]
  | (k0, v0) :: rest, k, v =>
      if k0 = k then (k0, v) :: rest else (k0, v0) :: aset rest k v

/-- `d.update(r)`: assign every pair of `r` in order. -/
def pyUpdate {α β : Type} [DecidableEq α] (d r : List (α × β)) : List (α × β) :=
  r.foldl (fun acc kv => aset acc kv.1 kv.2) d

/-! ## JSON values

The queue file holds one JSON object per line.  Scalar JSON values are
modelled directly; nested containers are represented by `jother` carrying
their Python `str()` rendering, which is all the script ever extracts from
them. -/

inductive JScalar where
  | jnull
  | jbool (b : Bool)
  | jint (n : Int)
  | jstr (s : String)
  | jother (rendering : String)
deriving DecidableEq, Repr

abbrev JDict := List (String × JScalar)

/-- Model of Python `str(value)` on a JSON scalar. -/
def pyStrOf : JScalar → String
  | .jnull => "None"
  | .jbool true => "True"
  | .jbool false => "False"
  | .jint n => toString n
  | .jstr s => s
  | .jother r => r

/-- `_clean_text` applied to `d.get(k)` for a JSON dict. -/
def cleanTextJ (v : Option JScalar) : String :=
  match v with
  | none => ""
  | some v => pyStrip (pyStrOf v)

/-- `_clean_text` applied to an optional string. -/
def cleanTextS (v : Option String) : String :=
  match v with
  | none => ""
  | some s => pyStrip s

/-! ## Model of Python `float()`

Covers the ordinary decimal forms (optional sign, digits with an optional
fraction part, optional exponent, surrounding whitespace); the exotic forms
(`inf`, `nan`, digit-group underscores) are outside the data the screener
produces. -/

/-- Numeric value of a digit string. -/
def digitsToNat (l : List Char) : Nat :=
  l.foldl (fun a c => a * 10 + (c.toNat - 48)) 0

/-- Parse the mantissa part: digits with an optional decimal point. -/
def parseMantissa (l : List Char) : Option ℚ :=
  let ip := l.takeWhile (fun c => c != '.')
  match l.dropWhile (fun c => c != '.') with
  | [] =>
      if ip.isEmpty then none
      else if ip.all Char.isDigit then some (digitsToNat ip : ℚ) else none
  | _ :: fp =>
      if ip.isEmpty && fp.isEmpty then none
      else if ip.all Char.isDigit && fp.all Char.isDigit then
        some ((digitsToNat ip : ℚ) + (digitsToNat fp : ℚ) / (10 : ℚ) ^ fp.length)
      else none

/-- Parse the exponent digits with an optional sign. -/
def parseExpPart (l : List Char) : Option Int :=
  let sr : Int × List Char :=
    match l with
    | '+' :: r => (1, r)
    | '-' :: r => (-1, r)
    | r => (1, r)
  if sr.2.isEmpty then none
  else if sr.2.all Char.isDigit then some (sr.1 * (digitsToNat sr.2 : Int)) else none

/-- Model of Python `float(s)`, returning `none` where Python raises
`ValueError`. -/
def pyFloat (s : String) : Option ℚ :=
  let l := trimChars s.data
  let sl : ℚ × List Char :=
    match l with
    | '+' :: r => (1, r)
    | '-' :: r => (-1, r)
    | r => (1, r)
  let mant := sl.2.takeWhile (fun c => c != 'e' && c != 'E')
  match parseMantissa mant, sl.2.dropWhile (fun c => c != 'e' && c != 'E') with
  | some q, [] => some (sl.1 * q)
  | some q, _ :: expPart => (parseExpPart expPart).map (fun k => sl.1 * q * (10 : ℚ) ^ k)
  | none, _ => none

/-! ## The metric parsers (`parse_percent`, `parse_float`, `parse_market_cap`) -/

def parse_percent (value : Option String) : Option ℚ :=
  match value with
  | none => none
  | some v =>
      if v = "" ∨ v = "-" then none
      else pyFloat (pyRemoveChar (pyRemoveChar v '%') ',')

def parse_float (value : Option String) : Option ℚ :=
  match value with
  | none => none
  | some v =>
      if v = "" ∨ v = "-" then none
      else pyFloat (pyRemoveChar v ',')

/-- Model of `s.endswith(c)` for a one-character suffix. -/
def strEndsWithChar (s : String) (c : Char) : Bool :=
  match s.data.getLast? with
  | some d => d = c
  | none => false

/-- Model of `s[:-1]`, dropping the final character. -/
def strDropLast (s : String) : String :=
  ⟨s.data.dropLast⟩

/-- The suffix-detection step of `parse_market_cap`: scale factor and the
string with the unit suffix removed. -/
def marketCapScale (cleaned : String) : ℚ × String :=
  if strEndsWithChar cleaned 'T' then (1000000000000, strDropLast cleaned)
  else if strEndsWithChar cleaned 'B' then (1000000000, strDropLast cleaned)
  else if strEndsWithChar cleaned 'M' then (1000000, strDropLast cleaned)
  else if strEndsWithChar cleaned 'K' then (1000, strDropLast cleaned)
  else (1, cleaned)

def parse_market_cap (value : Option String) : Option ℚ :=
  match value with
  | none => none
  | some v =>
      if v = "" ∨ v = "-" then none
      else
        let sc := marketCapScale (pyUpper (pyRemoveChar v ','))
        (pyFloat sc.2).map (fun q => q * sc.1)

/-! ## Run identifiers and path resolution

Paths are modelled as lists of already-resolved components (`Path.parts`);
`Path.resolve` on the absolute paths the script builds is the identity. -/

abbrev PathT := List String

def CANDIDATES_FILENAME : String := "finviz-candidates.json"

def SCREENER_RESULTS_FILENAME : String := "screener-results.jsonl"

/-- The `idea-screens` path-segment marker. -/
def IDEA_SCREENS_MARKER : String := "idea-screens"

def joinPath (p : PathT) : String :=
  String.intercalate "/" p

def lastName (p : PathT) : String :=
  p.getLast?.getD ""

/-- Consume exactly `n` decimal digits (the `\d{n}` regex atom; ASCII digits,
which is what run identifiers contain). -/
def takeDigits : Nat → List Char → Option (List Char)
  | 0, l => some l
  | _ + 1, [] => none
  | n + 1, c :: rest => if c.isDigit then takeDigits n rest else none

/-- Consume a literal dash. -/
def expectDash : List Char → Option (List Char)
  | [] => none
  | c :: rest => if c = '-' then some rest else none

/-- Consume `\d{4}-\d{2}-\d{2}-\d{6}` and return the remaining characters. -/
def runIdCore (l : List Char) : Option (List Char) :=
  (takeDigits 4 l).bind fun l1 =>
  (expectDash l1).bind fun l2 =>
  (takeDigits 2 l2).bind fun l3 =>
  (expectDash l3).bind fun l4 =>
  (takeDigits 2 l4).bind fun l5 =>
  (expectDash l5).bind fun l6 =>
  takeDigits 6 l6

/-- Model of `RUN_ID_RE.match(s)` being truthy, for
`RUN_ID_RE = ^\d{4}-\d{2}-\d{2}-\d{6}$`: in Python `$` matches at the end of
the string and also just before one trailing newline. -/
def runIdMatch (s : String) : Bool :=
  match runIdCore s.data with
  | some rest => decide (rest = []) || decide (rest = ['\n'])
  | none => false

/-- Follows the spec's words: a string of exactly the lexical form
`YYYY-MM-DD-HHMMSS`, nothing before or after it. -/
def specExactRunId (s : String) : Bool :=
  match runIdCore s.data with
  | some rest => decide (rest = [])
  | none => false

def invalidRunIdMsg (context runId : String) : String :=
  "Invalid " ++ context ++ ": " ++ runId ++ ". Expected format YYYY-MM-DD-HHMMSS."

/-- `_ensure_valid_screen_run_id`: raises `ValueError` on an identifier the
pattern does not match. -/
def ensure_valid_screen_run_id (runId : String) (context : String) :
    Except String Unit :=
  if runIdMatch runId then Except.ok () else Except.error (invalidRunIdMsg context runId)

/-- `_extract_screen_run_id_from_path`: the component after the first
`idea-screens` marker that has a successor. -/
def extract_screen_run_id_from_path : PathT → Option String
  | [] => none
  | part :: rest =>
      if part = IDEA_SCREENS_MARKER then
        match rest with
        | [] => extract_screen_run_id_from_path rest
        | next :: _ => some next
      else extract_screen_run_id_from_path rest

/-- Model of `pathlib`: the extension of a file name (empty when there is no
dot, the only dot leads, or the name ends in a dot). -/
def pathSuffix (name : String) : String :=
  let l := name.data
  let revAfter := l.reverse.takeWhile (fun c => c != '.')
  if revAfter.length = l.length then ""
  else
    let i := l.length - revAfter.length - 1
    if 0 < i ∧ i < l.length - 1 then String.mk ('.' :: revAfter.reverse) else ""

def looks_like_directory_path (p : PathT) (expectedFilename : String) : Bool :=
  decide (pathSuffix (lastName p) = "") && (lastName p != expectedFilename)

/-- Python `a or b` on strings: the empty string is falsy. -/
def pyOrS (a b : String) : String :=
  if a = "" then b else a

instance exceptDecEq {ε α : Type} [DecidableEq ε] [DecidableEq α] :
    DecidableEq (Except ε α) := fun a b =>
  match a, b with
  | .ok x, .ok y =>
      if h : x = y then .isTrue (by rw [h]) else .isFalse (by simp [h])
  | .error x, .error y =>
      if h : x = y then .isTrue (by rw [h]) else .isFalse (by simp [h])
  | .ok _, .error _ => .isFalse (by simp)
  | .error _, .ok _ => .isFalse (by simp)

/-- The selection input: the resolved path (`none` when read from stdin) and
the parsed payload, `Except.error` where reading or `json.loads` raises. -/
structure SelInput where
  pathOpt : Option PathT
  payload : Except String (List JDict)
deriving DecidableEq, Repr

/-- The command-line arguments after `argparse`, with the parser defaults. -/
structure Args where
  limit : Nat := 150
  ideaLimit : Nat := 25
  maxPages : Nat := 4
  screenRunId : Option String := none
  outputJson : Option PathT := none
  ideasLog : Option PathT := none
  selectionJson : Option SelInput := none
  fetchOnly : Bool := false
  keepArtifacts : Bool := false
  ignorePreferences : Bool := false
deriving DecidableEq, Repr

/-- `_resolve_output_json_path`: the snapshot path and the resolved run id,
`fresh` standing for `_new_screen_run_id()` and `dataRoot` for the resolved
data root. -/
def resolve_output_json_path (args : Args) (dataRoot : PathT) (fresh : String) :
    Except String (PathT × String) :=
  let outputPath0 : PathT :=
    match args.outputJson with
    | some p => p
    | none =>
      match args.ideasLog with
      | some lp =>
          if looks_like_directory_path lp SCREENER_RESULTS_FILENAME then
            lp ++ [CANDIDATES_FILENAME]
          else if lastName lp = SCREENER_RESULTS_FILENAME then
            lp.dropLast ++ [CANDIDATES_FILENAME]
          else
            lp.dropLast ++ [CANDIDATES_FILENAME]
      | none =>
          let rid :=
            match args.screenRunId with
            | some r => pyOrS r fresh
            | none => fresh
          dataRoot ++ [IDEA_SCREENS_MARKER, rid, CANDIDATES_FILENAME]
  let outputPath :=
    if looks_like_directory_path outputPath0 CANDIDATES_FILENAME then
      outputPath0 ++ [CANDIDATES_FILENAME]
    else outputPath0
  let runIdFromPath := extract_screen_run_id_from_path outputPath
  let requested := cleanTextS args.screenRunId
  do
    if requested ≠ "" then
      ensure_valid_screen_run_id requested "--screen-run-id"
    match runIdFromPath with
    | some rp => do
        ensure_valid_screen_run_id rp ("path " ++ joinPath outputPath)
        if requested ≠ "" ∧ requested ≠ rp then
          throw "--screen-run-id does not match the run folder in --output-json/--ideas-log."
    | none => pure ()
    let resolved := pyOrS requested (pyOrS (runIdFromPath.getD "") fresh)
    ensure_valid_screen_run_id resolved "screen run id"
    return (outputPath, resolved)

/-- `_resolve_screener_results_path`. -/
def resolve_screener_results_path (args : Args) (outputJsonPath : PathT)
    (screenRunId : String) : Except String PathT :=
  let path :=
    match args.ideasLog with
    | some lp =>
        if looks_like_directory_path lp SCREENER_RESULTS_FILENAME then
          lp ++ [SCREENER_RESULTS_FILENAME]
        else if lastName lp = CANDIDATES_FILENAME then
          lp.dropLast ++ [SCREENER_RESULTS_FILENAME]
        else lp
    | none => outputJsonPath.dropLast ++ [SCREENER_RESULTS_FILENAME]
  match extract_screen_run_id_from_path path with
  | some rp => do
      ensure_valid_screen_run_id rp ("path " ++ joinPath path)
      if rp ≠ screenRunId then
        throw "Resolved screener-results path run folder does not match screen run id."
      return path
  | none => return path

/-! ## The queue file and `append_selected_ideas`

A queue file is a list of lines; a line is blank, malformed (fails
`json.loads`), a non-dict JSON value, or a JSON object.  The file itself is
`none` when absent.  `_append_jsonl_lines` creates parent directories and the
file and repairs a missing trailing newline, none of which changes existing
line contents, so at line level it appends. -/

inductive FileLine where
  | blank
  | bad
  | nonDict
  | record (d : JDict)
deriving DecidableEq, Repr

/-- `_clean_text(payload.get("ticker")).upper()` of one line; `""` for lines
`_read_existing_tickers` skips. -/
def lineTicker : FileLine → String
  | .record d => pyUpper (cleanTextJ (aget d "ticker"))
  | _ => ""

def linesOf (file : Option (List FileLine)) : List FileLine :=
  match file with
  | none => []
  | some ls => ls

/-- `_read_existing_tickers` (set of tickers, modelled as the list of its
members). -/
def read_existing_tickers (file : Option (List FileLine)) : List String :=
  ((linesOf file).map lineTicker).filter (fun t => t ≠ "")

def cleanGetJ (d : JDict) (k : String) : String :=
  cleanTextJ (aget d k)

/-- `_clean_text(idea.get("ticker")).upper()`. -/
def ideaTicker (idea : JDict) : String :=
  pyUpper (cleanGetJ idea "ticker")

/-- The queue record built from one selected idea. -/
def entryOf (t : String) (idea : JDict) : JDict :=
  [("ticker", .jstr t),
   ("company", .jstr (cleanGetJ idea "company")),
   ("exchange", .jstr (cleanGetJ idea "exchange")),
   ("sector", .jstr (cleanGetJ idea "sector")),
   ("industry", .jstr (cleanGetJ idea "industry")),
   ("market", .jstr "us"),
   ("exchange_country", .jstr "US"),
   ("thesis", .jstr (cleanGetJ idea "thesis"))]

/-- The staging loop of `append_selected_ideas`: entries for ideas whose
ticker is non-empty and neither already present nor staged earlier in the
same call. -/
def stageIdeas (existing : List String) : List JDict → List JDict
  | [] => []
  | idea :: rest =>
      let t := ideaTicker idea
      if t = "" ∨ t ∈ existing then stageIdeas existing rest
      else entryOf t idea :: stageIdeas (t :: existing) rest

/-- `_append_jsonl_lines` at line level. -/
def append_jsonl_lines (file : Option (List FileLine)) (newLines : List FileLine) :
    List FileLine :=
  linesOf file ++ newLines

/-- `append_selected_ideas`: the new file state and the count returned. -/
def append_selected_ideas (file : Option (List FileLine))
    (selectedIdeas : List JDict) : Option (List FileLine) × Nat :=
  if (stageIdeas (read_existing_tickers file) selectedIdeas).isEmpty then (file, 0)
  else
    (some (append_jsonl_lines file
      ((stageIdeas (read_existing_tickers file) selectedIdeas).map FileLine.record)),
     (stageIdeas (read_existing_tickers file) selectedIdeas).length)

/-- The queue-file invariant: no ticker appears on two records. -/
def queueTickersNodup (file : Option (List FileLine)) : Prop :=
  (((linesOf file).map lineTicker).filter (fun t => t ≠ "")).Nodup

instance (file : Option (List FileLine)) : Decidable (queueTickersNodup file) :=
  inferInstanceAs (Decidable (List.Nodup _))

/-! ## The row aggregator (`merge_exchange_rows`)

The HTTP fetch and HTML parse are external collaborators; one exchange's
pages are an oracle from view and start row to parsed rows. -/

abbrev Row := List (String × String)

def VIEWS : List Nat := [111, 121, 161]

def ROWS_PER_PAGE : Nat := 20

/-- The `r` parameter of page `page`: `1 + page * 20`. -/
def pageStartRow (page : Nat) : Nat :=
  1 + page * ROWS_PER_PAGE

/-- The rows every view returns for one page (`page_rows.values()` in view
order). -/
def pageRowsOf (oracle : Nat → Nat → List Row) (page : Nat) : List (List Row) :=
  VIEWS.map (fun v => oracle v (pageStartRow page))

/-- `min(len(rows) for rows in page_rows.values())`. -/
def minViewCount (pages : List (List Row)) : Nat :=
  match pages.map List.length with
  | [] => 0
  | n :: ns => ns.foldl Nat.min n

def viewMin (oracle : Nat → Nat → List Row) (page : Nat) : Nat :=
  minViewCount (pageRowsOf oracle page)

/-- `_clean_text(row.get("Ticker")).upper()`. -/
def rowTicker (row : Row) : String :=
  pyUpper (cleanTextS (aget row "Ticker"))

/-- Merge one raw row: `merged.setdefault(ticker, {...})` then
`slot.update(row)`; a row without a ticker is discarded. -/
def mergeRow (exchangeName : String) (merged : List (String × Row)) (row : Row) :
    List (String × Row) :=
  if rowTicker row = "" then merged
  else
    match aget merged (rowTicker row) with
    | some slot => aset merged (rowTicker row) (pyUpdate slot row)
    | none =>
        merged ++ [(rowTicker row,
          pyUpdate [("Ticker", rowTicker row), ("Exchange", exchangeName)] row)]

/-- Merge one page: every view's rows in view order. -/
def mergePage (exchangeName : String) (merged : List (String × Row))
    (pages : List (List Row)) : List (String × Row) :=
  pages.foldl (fun m rows => rows.foldl (mergeRow exchangeName) m) merged

/-- The paging loop of `merge_exchange_rows`: the fetch log (view, start row)
in fetch order, and the final ticker-keyed map. -/
def mergePagesAux (exchangeName : String) (oracle : Nat → Nat → List Row) :
    Nat → Nat → List (String × Row) → List (Nat × Nat) × List (String × Row)
  | 0, _, merged => ([], merged)
  | fuel + 1, page, merged =>
      if viewMin oracle page = 0 then
        (VIEWS.map (fun v => (v, pageStartRow page)), merged)
      else if viewMin oracle page < ROWS_PER_PAGE then
        (VIEWS.map (fun v => (v, pageStartRow page)),
         mergePage exchangeName merged (pageRowsOf oracle page))
      else
        (VIEWS.map (fun v => (v, pageStartRow page)) ++
          (mergePagesAux exchangeName oracle fuel (page + 1)
            (mergePage exchangeName merged (pageRowsOf oracle page))).1,
         (mergePagesAux exchangeName oracle fuel (page + 1)
            (mergePage exchangeName merged (pageRowsOf oracle page))).2)

/-- The final ticker-keyed map `merged` of `merge_exchange_rows`. -/
def mergedMap (exchangeName : String) (oracle : Nat → Nat → List Row)
    (maxPages : Nat) : List (String × Row) :=
  (mergePagesAux exchangeName oracle maxPages 0 []).2

/-- `merge_exchange_rows`: the fetch log and `list(merged.values())`. -/
def merge_exchange_rows (exchangeName : String) (oracle : Nat → Nat → List Row)
    (maxPages : Nat) : List (Nat × Nat) × List Row :=
  ((mergePagesAux exchangeName oracle maxPages 0 []).1,
   (mergedMap exchangeName oracle maxPages).map Prod.snd)

/-- The pages the loop fetches: every page all of whose predecessors were
full. -/
def fetchedPages (oracle : Nat → Nat → List Row) (maxPages : Nat) : List Nat :=
  (List.range maxPages).filter
    (fun i => decide (∀ j, j < i → ROWS_PER_PAGE ≤ viewMin oracle j))

/-- The pages the loop merges: the fetched pages on which every view returned
at least one row. -/
def mergedPages (oracle : Nat → Nat → List Row) (maxPages : Nat) : List Nat :=
  (fetchedPages oracle maxPages).filter (fun i => decide (1 ≤ viewMin oracle i))

/-- The per-ticker slot a fresh ticker starts from. -/
def initialSlot (exchangeName t : String) : Row :=
  [("Ticker", t), ("Exchange", exchangeName)]

/-- All raw rows of the merged pages in traversal order: pages, then views,
then rows. -/
def mergedRowsInOrder (oracle : Nat → Nat → List Row) (maxPages : Nat) :
    List Row :=
  (mergedPages oracle maxPages).flatMap (fun i => (pageRowsOf oracle i).flatten)

/-- Folding a sequence of raw rows for one ticker over its slot: each row in
order shallow-merges into the slot, later values overwriting earlier ones. -/
def slotAfter (exchangeName t : String) (init : Option Row) (rows : List Row) :
    Option Row :=
  rows.foldl
    (fun acc row => some (pyUpdate (acc.getD (initialSlot exchangeName t)) row))
    init

/-- A two-page oracle on which one ticker appears on both pages with
conflicting field values: page one is full, page two is short. -/
def lastWriteOracle : Nat → Nat → List Row := fun _ start =>
  if start = 1 then List.replicate 20 [("Ticker", "A1"), ("X", "old")]
  else if start = 21 then [[("Ticker", "A1"), ("X", "new")]]
  else []

/-! ## The filesystem model and `_cleanup_artifacts`

Files are keyed by resolved path; `locked` holds the paths whose `unlink`
raises an `OSError` (file in use, permissions).  The script carries no
handler around `unlink`, so in the model the error propagates. -/

structure FS where
  files : List (PathT × List FileLine)
  locked : List PathT
deriving DecidableEq, Repr

def getFile (fs : FS) (p : PathT) : Option (List FileLine) :=
  aget fs.files p

def setFile (fs : FS) (p : PathT) (content : List FileLine) : FS :=
  { fs with files := aset fs.files p content }

def existsF (fs : FS) (p : PathT) : Bool :=
  (aget fs.files p).isSome

def removeFile (fs : FS) (p : PathT) : FS :=
  { fs with files := fs.files.filter (fun e => decide (e.1 ≠ p)) }

/-- `path.unlink()`: removes the file, or raises when the OS refuses. -/
def unlinkF (fs : FS) (p : PathT) : Except String FS :=
  if p ∈ fs.locked then Except.error ("unlink failed: " ++ joinPath p)
  else Except.ok (removeFile fs p)

/-- `_is_within`: `path.relative_to(root)` succeeds exactly when `root` is a
prefix of `path` (equality included). -/
def isWithin (p root : PathT) : Bool :=
  root.isPrefixOf p

/-- The snapshot-deletion step of `_cleanup_artifacts`. -/
def cleanup_step_candidate (fs : FS) (out runDir : PathT) :
    Except String (FS × List PathT) :=
  if existsF fs out && isWithin out runDir then
    (unlinkF fs out).map (fun fs1 => (fs1, [out]))
  else Except.ok (fs, [])

/-- The selection-input-deletion step of `_cleanup_artifacts`. -/
def cleanup_step_selection (fs1 : FS) (cleaned1 : List PathT)
    (selOpt : Option PathT) (out scr runDir : PathT) :
    Except String (FS × List PathT) :=
  match selOpt with
  | none => Except.ok (fs1, cleaned1)
  | some selPath =>
      if existsF fs1 selPath && isWithin selPath runDir &&
          decide (selPath ≠ scr) && decide (selPath ≠ out) then
        (unlinkF fs1 selPath).map (fun fs2 => (fs2, cleaned1 ++ [selPath]))
      else Except.ok (fs1, cleaned1)

/-- `_cleanup_artifacts`. -/
def cleanup_artifacts (fs : FS) (outputJsonPath : PathT)
    (selectionJsonPath : Option PathT) (screenerResultsPath : PathT)
    (keepArtifacts : Bool) : Except String (FS × List PathT) :=
  if keepArtifacts then Except.ok (fs, [])
  else
    match cleanup_step_candidate fs outputJsonPath
        screenerResultsPath.dropLast with
    | Except.error e => Except.error e
    | Except.ok (fs1, cleaned1) =>
        cleanup_step_selection fs1 cleaned1 selectionJsonPath outputJsonPath
          screenerResultsPath screenerResultsPath.dropLast

/-- A one-file filesystem whose only file is the queue file itself. -/
def c9FS : FS :=
  { files := [(["data", "screener-results.jsonl"], [FileLine.blank])],
    locked := [] }

def c9Queue : PathT := ["data", "screener-results.jsonl"]

/-! ## Candidates (`build_candidate`, `collect_candidates`) -/

structure CMetrics where
  marketCapUsd : Option ℤ
  pe : Option ℚ
  forwardPe : Option ℚ
  priceToBook : Option ℚ
  roePct : Option ℚ
  roicPct : Option ℚ
  operMarginPct : Option ℚ
  profitMarginPct : Option ℚ
  debtToEquity : Option ℚ
  epsNext5yPct : Option ℚ
deriving DecidableEq, Repr

structure Candidate where
  ticker : String
  company : String
  exchange : String
  sector : String
  industry : String
  market : String
  exchangeCountry : String
  metrics : CMetrics
deriving DecidableEq, Repr

/-- `build_candidate` (Python `round()` on the market cap modelled by
`round`). -/
def build_candidate (row : Row) : Option Candidate :=
  if pyUpper (cleanTextS (aget row "Ticker")) = "" then none
  else
    some
      { ticker := pyUpper (cleanTextS (aget row "Ticker")),
        company := cleanTextS (aget row "Company"),
        exchange := cleanTextS (aget row "Exchange"),
        sector := cleanTextS (aget row "Sector"),
        industry := cleanTextS (aget row "Industry"),
        market := "us",
        exchangeCountry := "US",
        metrics :=
          { marketCapUsd := (parse_market_cap (aget row "Market Cap")).map
              (fun q => round q),
            pe := parse_float (aget row "P/E"),
            forwardPe := parse_float (aget row "Fwd P/E"),
            priceToBook := parse_float (aget row "P/B"),
            roePct := parse_percent (aget row "ROE"),
            roicPct := parse_percent (aget row "ROIC"),
            operMarginPct := parse_percent (aget row "Oper M"),
            profitMarginPct := parse_percent (aget row "Profit M"),
            debtToEquity := parse_float (aget row "Debt/Eq"),
            epsNext5yPct := parse_percent (aget row "EPS Next 5Y") } }

/-- The loop of `collect_candidates`: dedup by ticker, stop after the limit
is reached (the breaking append included). -/
def collectAux (limit : Nat) : List Row → List String → Nat → List Candidate
  | [], _, _ => []
  | row :: rest, seen, cnt =>
      match build_candidate row with
      | none => collectAux limit rest seen cnt
      | some c =>
          if c.ticker ∈ seen then collectAux limit rest seen cnt
          else if limit ≤ cnt + 1 then [c]
          else c :: collectAux limit rest (c.ticker :: seen) (cnt + 1)

def collect_candidates (rows : List Row) (limit : Nat) : List Candidate :=
  collectAux limit rows [] 0

/-! ## The scoring engine

Modelled from the spec: the repository source under review holds no `score`
function — the scoring engine of spec section 4.3 lives outside the staged
files — so the definitions below follow the spec text: three independently
computed, clamped sub-scores summed and rounded to 2 decimal places. -/

structure ScoreMetrics where
  pe : Option ℚ
  forwardPe : Option ℚ
  priceToBook : Option ℚ
  roePct : Option ℚ
  roicPct : Option ℚ
  operMarginPct : Option ℚ
  profitMarginPct : Option ℚ
  debtToEquity : Option ℚ
  epsNext5yPct : Option ℚ
deriving DecidableEq, Repr

/-- Clamp a term into `[0, cap]`. -/
def clampTerm (cap x : ℚ) : ℚ :=
  max 0 (min cap x)

/-- Modelled from the spec: a P/E-style term, `points · (maxPe − v)/maxPe`
clamped, zero when the input is null. -/
def peStyleTerm (points maxPe : ℚ) (v : Option ℚ) : ℚ :=
  match v with
  | none => 0
  | some p => clampTerm points (points * ((maxPe - p) / maxPe))

/-- Modelled from the spec: price/book contributes up to 10 points scaled as
`(6 − pb)/6`, floored at 0. -/
def pbTerm (v : Option ℚ) : ℚ :=
  match v with
  | none => 0
  | some pb => clampTerm 10 (10 * ((6 - pb) / 6))

/-- Modelled from the spec: a quality term scaled to a reference value and
capped. -/
def refTerm (cap ref : ℚ) (v : Option ℚ) : ℚ :=
  match v with
  | none => 0
  | some x => clampTerm cap (cap * (x / ref))

/-- Modelled from the spec: the debt/equity-vs-ceiling component, up to 5
points as `(1 − debt/ceiling)` clamped to `[0,1]`; 0 for a non-positive
ceiling. -/
def debtTerm (maxDe : ℚ) (v : Option ℚ) : ℚ :=
  match v with
  | none => 0
  | some d => if maxDe ≤ 0 then 0 else 5 * clampTerm 1 (1 - d / maxDe)

/-- Modelled from the spec: 5-year EPS growth floored at 0, scaled to a 15%
reference, capped at 10 points. -/
def growthTerm (v : Option ℚ) : ℚ :=
  match v with
  | none => 0
  | some g => clampTerm 10 (10 * (max 0 g / 15))

def valueSubscore (m : ScoreMetrics) (maxPe : ℚ) : ℚ :=
  peStyleTerm 40 maxPe m.pe + peStyleTerm 20 maxPe m.forwardPe +
    pbTerm m.priceToBook

def qualitySubscore (m : ScoreMetrics) (maxDe : ℚ) : ℚ :=
  refTerm 10 30 m.roePct + refTerm 10 25 m.roicPct +
    refTerm 10 25 m.operMarginPct + refTerm 5 20 m.profitMarginPct +
    debtTerm maxDe m.debtToEquity

/-- Round to two decimal places. -/
def round2 (q : ℚ) : ℚ :=
  (⌊q * 100 + 1 / 2⌋ : ℚ) / 100

/-- Modelled from the spec:
`score(metrics, max_pe, max_debt_to_equity) -> float ≥ 0`. -/
def score (m : ScoreMetrics) (maxPe maxDe : ℚ) : ℚ :=
  round2 (valueSubscore m maxPe + qualitySubscore m maxDe +
    growthTerm m.epsNext5yPct)

/-! ## The preference filter

Modelled from the spec: the market allow-list and sector/industry policy
checks of spec section 4.4 (`market_is_allowed`, `matches_sector_industry`)
are not among the staged source files; the preference document is abstracted
to its allow-list and its per-candidate policy predicate. -/

structure UserPreferences where
  allowedMarkets : List String
  sectorIndustryOk : String → String → Bool

/-- Modelled from the spec: when preferences are disabled by the caller both
checks are skipped; otherwise a disallowed market fails the whole run (one
check per run), and each candidate must satisfy the sector/industry
policy. -/
def preference_filter (disabled : Bool) (prefs : UserPreferences)
    (market : String) (candidates : List Candidate) :
    Except String (List Candidate) :=
  if disabled then Except.ok candidates
  else if prefs.allowedMarkets.contains market = false then
    Except.error ("market not allowed: " ++ market)
  else
    Except.ok (candidates.filter
      (fun c => prefs.sectorIndustryOk c.sector c.industry))

/-! ## The `main` control flow

The observable effects of one invocation: fetches (network) and file
mutations, in program order, together with the final outcome.  The fetch
transport is the per-exchange oracle; `fresh` stands for
`_new_screen_run_id()`. -/

inductive Event where
  | fetch (exchangeFilter : String) (view : Nat) (startRow : Nat)
  | writeSnapshot (p : PathT)
  | appendQueue (p : PathT)
  | unlink (p : PathT)
deriving DecidableEq, Repr

def EXCHANGES : List (String × String) :=
  [("NASDAQ", "exch_nasd"), ("NYSE", "exch_nyse"), ("AMEX", "exch_amex")]

/-- The structured JSON summary `main` prints; fields absent from the
fetch-only summary are `none` there. -/
structure Summary where
  outputJson : PathT
  ideasLog : PathT
  screenRunId : String
  candidateCount : Nat
  fetchOnly : Bool
  selectionApplied : Option Bool
  selectedCount : Option Nat
  appendedCount : Option Nat
  artifactsCleaned : Option (List PathT)
  keepArtifacts : Option Bool
deriving DecidableEq, Repr

/-- The validations of `parse_args` (flag parsing itself is the excluded CLI
collaborator). -/
def parse_args_check (args : Args) : Except String Unit := do
  if args.limit = 0 then
    throw "--limit must be greater than 0."
  if args.ideaLimit = 0 then
    throw "--idea-limit must be greater than 0."
  if args.maxPages = 0 then
    throw "--max-pages-per-exchange must be greater than 0."
  match args.screenRunId with
  | some r =>
      if r ≠ "" ∧ runIdMatch r = false then
        throw (invalidRunIdMsg "--screen-run-id" r)
  | none => pure ()
  if args.fetchOnly ∧ args.selectionJson.isSome then
    throw "--fetch-only cannot be combined with --selection-json."

/-- The two path resolutions of `main`, both inside one `try`. -/
def resolve_paths (args : Args) (dataRoot : PathT) (fresh : String) :
    Except String (PathT × String × PathT) := do
  let (outPath, runId) ← resolve_output_json_path args dataRoot fresh
  let scrPath ← resolve_screener_results_path args outPath runId
  pure (outPath, runId, scrPath)

/-- The fetch loop over the three exchanges: its network events in order. -/
def fetchEventsOf (oracle : String → Nat → Nat → List Row) (maxPages : Nat) :
    List Event :=
  EXCHANGES.flatMap (fun ex =>
    (merge_exchange_rows ex.1 (oracle ex.2) maxPages).1.map
      (fun vr => Event.fetch ex.2 vr.1 vr.2))

/-- The raw rows the fetch loop accumulates. -/
def rawRowsOf (oracle : String → Nat → Nat → List Row) (maxPages : Nat) :
    List Row :=
  EXCHANGES.flatMap (fun ex => (merge_exchange_rows ex.1 (oracle ex.2) maxPages).2)

/-- The snapshot payload as queue-file lines: an indented JSON document, none
of whose single lines parses as a JSON record. -/
def snapshotLines : List FileLine :=
  [FileLine.bad]

/-- The normalization loop of `_normalize_selected_ideas`. -/
def normAux (byTicker : List (String × Candidate)) (ideaLimit : Nat) :
    List JDict → List String → Nat → List JDict
  | [], _, _ => []
  | item :: rest, seen, cnt =>
      let t := pyUpper (cleanGetJ item "ticker")
      if t = "" ∨ t ∈ seen then normAux byTicker ideaLimit rest seen cnt
      else
        match aget byTicker t with
        | none => normAux byTicker ideaLimit rest seen cnt
        | some cand =>
            if cleanGetJ item "thesis" = "" then
              normAux byTicker ideaLimit rest seen cnt
            else
              let entry : JDict :=
                [("ticker", .jstr t),
                 ("company", .jstr (pyOrS (cleanGetJ item "company")
                   (pyStrip cand.company))),
                 ("exchange", .jstr (pyOrS (cleanGetJ item "exchange")
                   (pyStrip cand.exchange))),
                 ("sector", .jstr (pyOrS (cleanGetJ item "sector")
                   (pyStrip cand.sector))),
                 ("industry", .jstr (pyOrS (cleanGetJ item "industry")
                   (pyStrip cand.industry))),
                 ("market", .jstr "us"),
                 ("exchange_country", .jstr "US"),
                 ("thesis", .jstr (cleanGetJ item "thesis"))]
              if ideaLimit ≤ cnt + 1 then [entry]
              else entry :: normAux byTicker ideaLimit rest (t :: seen) (cnt + 1)

/-- `_normalize_selected_ideas`. -/
def normalize_selected_ideas (selectedPayload : List JDict)
    (candidates : List Candidate) (ideaLimit : Nat) : List JDict :=
  normAux
    (candidates.foldl (fun m c => aset m (pyUpper (pyStrip c.ticker)) c) [])
    ideaLimit selectedPayload [] 0

/-- The run state just after a successful append, before cleanup. -/
structure RunState where
  fs : FS
  outPath : PathT
  scrPath : PathT
  selPath : Option PathT
  runId : String
  candidateCount : Nat
  selectedCount : Nat
  appendedCount : Nat
deriving Repr

/-- Where `main` stands after the append and before the cleanup call. -/
inductive BeforeResult where
  | err (e : String)
  | fetchOnlyDone (fs : FS) (s : Summary)
  | ready (st : RunState)
deriving Repr

/-- `main` from argument validation through the append; cleanup is applied by
`mainModel`. -/
def mainBeforeCleanup (args : Args) (oracle : String → Nat → Nat → List Row)
    (fresh : String) (dataRoot : PathT) (fs : FS) : List Event × BeforeResult :=
  match parse_args_check args with
  | Except.error e => ([], .err e)
  | Except.ok _ =>
    let evs := fetchEventsOf oracle args.maxPages
    let candidates := collect_candidates (rawRowsOf oracle args.maxPages) args.limit
    match resolve_paths args dataRoot fresh with
    | Except.error e => (evs, .err e)
    | Except.ok (outPath, runId, scrPath) =>
      let fs1 := setFile fs outPath snapshotLines
      let evs1 := evs ++ [Event.writeSnapshot outPath]
      match args.selectionJson with
      | none =>
          (evs1, .fetchOnlyDone fs1
            { outputJson := outPath, ideasLog := scrPath, screenRunId := runId,
              candidateCount := candidates.length, fetchOnly := args.fetchOnly,
              selectionApplied := some false, selectedCount := none,
              appendedCount := none, artifactsCleaned := none,
              keepArtifacts := none })
      | some sel =>
          if args.fetchOnly then
            (evs1, .fetchOnlyDone fs1
              { outputJson := outPath, ideasLog := scrPath, screenRunId := runId,
                candidateCount := candidates.length, fetchOnly := args.fetchOnly,
                selectionApplied := some false, selectedCount := none,
                appendedCount := none, artifactsCleaned := none,
                keepArtifacts := none })
          else
            match sel.payload with
            | Except.error e =>
                (evs1, .err ("Failed to read --selection-json: " ++ e))
            | Except.ok payload =>
                let normalized :=
                  normalize_selected_ideas payload candidates args.ideaLimit
                if normalized.isEmpty then
                  (evs1, .err ("No valid selected ideas after normalization. " ++
                    "Ensure selection JSON uses candidate tickers and includes " ++
                    "non-empty thesis values."))
                else
                  let r := append_selected_ideas (getFile fs1 scrPath) normalized
                  let fs2 :=
                    if r.2 = 0 then fs1
                    else
                      match r.1 with
                      | some content => setFile fs1 scrPath content
                      | none => fs1
                  let evs2 :=
                    if r.2 = 0 then evs1 else evs1 ++ [Event.appendQueue scrPath]
                  (evs2, .ready
                    { fs := fs2, outPath := outPath, scrPath := scrPath,
                      selPath := sel.pathOpt, runId := runId,
                      candidateCount := candidates.length,
                      selectedCount := normalized.length, appendedCount := r.2 })

/-- The `main` model: the effect trace and the outcome (`Except.error` for a
fatal non-zero exit, `Except.ok` for the printed summary and final

filesystem). -/
def mainModel (args : Args) (oracle : String → Nat → Nat → List Row)
    (fresh : String) (dataRoot : PathT) (fs : FS) :
    List Event × Except String (FS × Summary) :=
  match mainBeforeCleanup args oracle fresh dataRoot fs with
  | (evs, .err e) => (evs, Except.error e)
  | (evs, .fetchOnlyDone fs1 s) => (evs, Except.ok (fs1, s))
  | (evs, .ready st) =>
      match cleanup_artifacts st.fs st.outPath st.selPath st.scrPath
          args.keepArtifacts with
      | Except.error e => (evs, Except.error e)
      | Except.ok (fs2, cleaned) =>
          (evs ++ cleaned.map Event.unlink,
           Except.ok (fs2,
             { outputJson := st.outPath, ideasLog := st.scrPath,
               screenRunId := st.runId, candidateCount := st.candidateCount,
               fetchOnly := false, selectionApplied := none,
               selectedCount := some st.selectedCount,
               appendedCount := some st.appendedCount,
               artifactsCleaned := some cleaned,
               keepArtifacts := some args.keepArtifacts }))

/-- Arguments whose snapshot path encodes a malformed run identifier. -/
def c4Args : Args :=
  { outputJson := some ["idea-screens", "oops", "finviz-candidates.json"] }

/-- A transport that returns no rows at all. -/
def emptyOracle : String → Nat → Nat → List Row := fun _ _ _ => []

/-- Arguments for a full fetch-select-append run. -/
def c10Args : Args :=
  { outputJson := some ["data", "idea-screens", "2024-01-02-030405",
      "finviz-candidates.json"],
    selectionJson := some
      { pathOpt := some ["data", "idea-screens", "2024-01-02-030405",
          "sel.json"],
        payload := Except.ok
          [[("ticker", JScalar.jstr "AAA"), ("thesis", JScalar.jstr "good")]] } }

/-- A transport with one candidate row per view. -/
def oneRowOracle : String → Nat → Nat → List Row := fun _ _ start =>
  if start = 1 then [[("Ticker", "AAA")]] else []

/-- A filesystem on which deleting the snapshot path raises. -/
def c10FS : FS :=
  { files := [],
    locked := [["data", "idea-screens", "2024-01-02-030405",
      "finviz-candidates.json"]] }

/-- The effect trace of the `c10Args` run up to cleanup, on an empty
filesystem. -/
def c10Evs : List Event :=
  [Event.fetch "exch_nasd" 111 1, Event.fetch "exch_nasd" 121 1,
   Event.fetch "exch_nasd" 161 1, Event.fetch "exch_nyse" 111 1,
   Event.fetch "exch_nyse" 121 1, Event.fetch "exch_nyse" 161 1,
   Event.fetch "exch_amex" 111 1, Event.fetch "exch_amex" 121 1,
   Event.fetch "exch_amex" 161 1,
   Event.writeSnapshot ["data", "idea-screens", "2024-01-02-030405",
     "finviz-candidates.json"],
   Event.appendQueue ["data", "idea-screens", "2024-01-02-030405",
     "screener-results.jsonl"]]

/-- The run state of the `c10Args` run just before cleanup, on an empty
filesystem. -/
def c10St : RunState :=
  { fs :=
      { files :=
          [(["data", "idea-screens", "2024-01-02-030405",
             "finviz-candidates.json"], [FileLine.bad]),
           (["data", "idea-screens", "2024-01-02-030405",
             "screener-results.jsonl"],
            [FileLine.record
               [("ticker", JScalar.jstr "AAA"), ("company", JScalar.jstr ""),
                ("exchange", JScalar.jstr "NASDAQ"),
                ("sector", JScalar.jstr ""), ("industry", JScalar.jstr ""),
                ("market", JScalar.jstr "us"),
                ("exchange_country", JScalar.jstr "US"),
                ("thesis", JScalar.jstr "good")]])],
        locked := [] },
    outPath := ["data", "idea-screens", "2024-01-02-030405",
      "finviz-candidates.json"],
    scrPath := ["data", "idea-screens", "2024-01-02-030405",
      "screener-results.jsonl"],
    selPath := some ["data", "idea-screens", "2024-01-02-030405", "sel.json"],
    runId := "2024-01-02-030405",
    candidateCount := 1,
    selectedCount := 1,
    appendedCount := 1 }

theorem find?_asciiUpperPairs_image :
    ∀ p ∈ asciiUpperPairs, asciiUpperPairs.find? (fun q => q.1 = p.2) = none := by
  decide

theorem asciiUpperPairs_not_ws :
    ∀ p ∈ asciiUpperPairs, p.1.isWhitespace = false ∧ p.2.isWhitespace = false := by
  decide

theorem asciiUpper_idem (c : Char) : asciiUpper (asciiUpper c) = asciiUpper c := by
  unfold asciiUpper
  cases h : asciiUpperPairs.find? (fun p => p.1 = c) with
  | none => simp [h]
  | some p =>
      have hmem : p ∈ asciiUpperPairs := List.mem_of_find?_eq_some h
      simp [find?_asciiUpperPairs_image p hmem]

theorem asciiUpper_isWhitespace (c : Char) :
    (asciiUpper c).isWhitespace = c.isWhitespace := by
  unfold asciiUpper
  cases h : asciiUpperPairs.find? (fun p => p.1 = c) with
  | none => rfl
  | some p =>
      have hmem : p ∈ asciiUpperPairs := List.mem_of_find?_eq_some h
      have hc : p.1 = c := by
        have := List.find?_some h
        simpa using this
      have hws := asciiUpperPairs_not_ws p hmem
      rw [hws.2, ← hc, hws.1]

theorem dropWhile_idem (p : Char → Bool) (l : List Char) :
    (l.dropWhile p).dropWhile p = l.dropWhile p := by
  induction l with
  | nil => rfl
  | cons a l ih =>
      by_cases h : p a
      · simp [List.dropWhile_cons, h, ih]
      · simp [List.dropWhile_cons, h]

theorem head?_dropWhile_false {p : Char → Bool} {l : List Char} {c : Char}
    (h : (l.dropWhile p).head? = some c) : p c = false := by
  induction l with
  | nil => simp at h
  | cons a l ih =>
      by_cases hp : p a
      · rw [List.dropWhile_cons, if_pos hp] at h
        exact ih h
      · rw [List.dropWhile_cons, if_neg hp] at h
        simp at h
        rw [← h]
        simpa using hp

theorem dropWhile_eq_self_of_head {p : Char → Bool} {l : List Char}
    (h : ∀ c, l.head? = some c → p c = false) : l.dropWhile p = l := by
  cases l with
  | nil => rfl
  | cons a l =>
      have := h a (by rfl)
      simp [List.dropWhile_cons, this]

theorem getLast?_dropWhile {p : Char → Bool} {l : List Char}
    (h : l.dropWhile p ≠ []) : (l.dropWhile p).getLast? = l.getLast? := by
  induction l with
  | nil => simp at h
  | cons a l ih =>
      by_cases hp : p a
      · rw [List.dropWhile_cons, if_pos hp] at h ⊢
        rw [ih h]
        have hl : l ≠ [] := by
          intro he
          exact h (by simp [he])
        simp [List.getLast?_cons, hl]
        cases l with
        | nil => exact absurd rfl hl
        | cons b m => rfl
      · rw [List.dropWhile_cons, if_neg hp]

theorem trimChars_map_asciiUpper (l : List Char) :
    trimChars (l.map asciiUpper) = (trimChars l).map asciiUpper := by
  unfold trimChars
  have hcomm : ∀ (m : List Char),
      (m.map asciiUpper).dropWhile Char.isWhitespace =
        (m.dropWhile Char.isWhitespace).map asciiUpper := by
    intro m
    rw [List.dropWhile_map]
    have hpred : (Char.isWhitespace ∘ asciiUpper) = Char.isWhitespace :=
      funext fun c => by simp [Function.comp, asciiUpper_isWhitespace]
    rw [hpred]
  rw [hcomm, ← List.map_reverse, hcomm, ← List.map_reverse]

theorem head?_trimChars_false {l : List Char} {c : Char}
    (h : (trimChars l).head? = some c) : c.isWhitespace = false := by
  unfold trimChars at h
  set u := l.dropWhile Char.isWhitespace with hu
  set v := u.reverse.dropWhile Char.isWhitespace with hv
  have hvne : v ≠ [] := by
    intro he
    rw [he] at h
    simp at h
  have hlast : v.getLast? = some c := by
    rw [← List.head?_reverse]
    exact h
  have hlast2 : u.reverse.getLast? = some c := by
    rw [← getLast?_dropWhile (p := Char.isWhitespace) (l := u.reverse) hvne, ← hv]
    exact hlast
  have hhead : u.head? = some c := by
    rw [← List.getLast?_reverse]
    exact hlast2
  exact head?_dropWhile_false (l := l) (by rw [← hu]; exact hhead)

theorem getLast?_trimChars_false {l : List Char} {c : Char}
    (h : (trimChars l).getLast? = some c) : c.isWhitespace = false := by
  unfold trimChars at h
  rw [List.getLast?_reverse] at h
  exact head?_dropWhile_false h

theorem trimChars_idem (l : List Char) : trimChars (trimChars l) = trimChars l := by
  have h1 : (trimChars l).dropWhile Char.isWhitespace = trimChars l :=
    dropWhile_eq_self_of_head (fun c hc => head?_trimChars_false hc)
  have h2 : (trimChars l).reverse.dropWhile Char.isWhitespace = (trimChars l).reverse := by
    apply dropWhile_eq_self_of_head
    intro c hc
    rw [List.head?_reverse] at hc
    exact getLast?_trimChars_false hc
  show (((trimChars l).dropWhile Char.isWhitespace).reverse.dropWhile
      Char.isWhitespace).reverse = trimChars l
  rw [h1, h2, List.reverse_reverse]

theorem pyStrip_pyUpper_pyStrip (s : String) :
    pyStrip (pyUpper (pyStrip s)) = pyUpper (pyStrip s) := by
  unfold pyStrip pyUpper
  simp only []
  congr 1
  rw [trimChars_map_asciiUpper, trimChars_idem]

theorem pyUpper_pyUpper (s : String) : pyUpper (pyUpper s) = pyUpper s := by
  unfold pyUpper
  congr 1
  rw [List.map_map]
  apply List.map_congr_left
  intro c _
  exact asciiUpper_idem c

/-- The canonical cleaned-and-uppercased form is a fixed point of cleaning. -/
theorem cleanUpper_fixed (s : String) :
    pyUpper (pyStrip (pyUpper (pyStrip s))) = pyUpper (pyStrip s) := by
  rw [pyStrip_pyUpper_pyStrip, pyUpper_pyUpper]

theorem asciiUpperPairs_avoid (c : Char)
    (hc : ∀ p ∈ asciiUpperPairs, p.1 ≠ c ∧ p.2 ≠ c) (d : Char) :
    asciiUpper d = c ↔ d = c := by
  unfold asciiUpper
  cases h : asciiUpperPairs.find? (fun p => p.1 = d) with
  | none => exact Iff.rfl
  | some p =>
      have hmem : p ∈ asciiUpperPairs := List.mem_of_find?_eq_some h
      have hd : p.1 = d := by
        have := List.find?_some h
        simpa using this
      constructor
      · intro he
        exact absurd he (hc p hmem).2
      · intro he
        rw [he] at hd
        exact absurd hd (hc p hmem).1

theorem asciiUpperPairs_ne_comma :
    ∀ p ∈ asciiUpperPairs, p.1 ≠ ',' ∧ p.2 ≠ ',' := by
  decide

theorem pyRemoveChar_comma_pyUpper (s : String) :
    pyRemoveChar (pyUpper s) ',' = pyUpper (pyRemoveChar s ',') := by
  have hlist : (s.data.map asciiUpper).filter (fun d => d != ',') =
      (s.data.filter (fun d => d != ',')).map asciiUpper := by
    rw [List.filter_map]
    have hp : ((fun d => d != ',') ∘ asciiUpper) = (fun d => d != ',') := by
      funext d
      have hiff := asciiUpperPairs_avoid ',' asciiUpperPairs_ne_comma d
      by_cases hd : d = ','
      · subst hd
        decide
      · have hne : asciiUpper d ≠ ',' := fun he => hd (hiff.mp he)
        have h1 : (asciiUpper d == ',') = false := beq_eq_false_iff_ne.mpr hne
        have h2 : (d == ',') = false := beq_eq_false_iff_ne.mpr hd
        simp [Function.comp, bne, h1, h2]
    rw [hp]
  show String.mk ((s.data.map asciiUpper).filter (fun d => d != ',')) =
    String.mk ((s.data.filter (fun d => d != ',')).map asciiUpper)
  rw [hlist]

theorem string_mk_inj {l m : List Char} : String.mk l = String.mk m ↔ l = m := by
  constructor
  · intro h
    have := congrArg String.data h
    simpa using this
  · intro h
    rw [h]

theorem pyUpper_eq_empty_iff (s : String) : pyUpper s = "" ↔ s = "" := by
  cases s with
  | mk l =>
      show String.mk (l.map asciiUpper) = String.mk [] ↔ String.mk l = String.mk []
      rw [string_mk_inj, string_mk_inj]
      simp

theorem asciiUpperPairs_ne_dash :
    ∀ p ∈ asciiUpperPairs, p.1 ≠ '-' ∧ p.2 ≠ '-' := by
  decide

theorem pyUpper_eq_dash_iff (s : String) : pyUpper s = "-" ↔ s = "-" := by
  cases s with
  | mk l =>
      show String.mk (l.map asciiUpper) = String.mk ['-'] ↔ String.mk l = String.mk ['-']
      rw [string_mk_inj, string_mk_inj]
      cases l with
      | nil => simp
      | cons a m =>
          simp only [List.map_cons, List.cons.injEq, List.map_eq_nil_iff]
          rw [asciiUpperPairs_avoid '-' asciiUpperPairs_ne_dash a]

/-- C6: the metric parsers are total and nullable: `None`, `""`, `"-"` and any
non-numeric remainder yield null; `parse_percent` strips `%` and thousands
separators (`parse_percent "12.3%" = 12.3`); `parse_market_cap` strips
separators and applies a case-insensitive trailing suffix `T`/`B`/`M`/`K` as
`10^12`/`10^9`/`10^6`/`10^3`, no suffix meaning `1`, so
`parse_market_cap "1.5B" = 1.5e9` and `parse_market_cap "-"` is null. -/
theorem c6_metric_parsers :
    (parse_percent none = none ∧ parse_float none = none ∧
      parse_market_cap none = none) ∧
    (parse_percent (some "") = none ∧ parse_percent (some "-") = none ∧
      parse_float (some "") = none ∧ parse_float (some "-") = none ∧
      parse_market_cap (some "") = none ∧ parse_market_cap (some "-") = none) ∧
    (∀ s : String, pyFloat (pyRemoveChar (pyRemoveChar s '%') ',') = none →
      parse_percent (some s) = none) ∧
    (∀ s : String, pyFloat (pyRemoveChar s ',') = none →
      parse_float (some s) = none) ∧
    (∀ s : String,
      pyFloat (marketCapScale (pyUpper (pyRemoveChar s ','))).2 = none →
      parse_market_cap (some s) = none) ∧
    parse_percent (some "12.3%") = some (123 / 10) ∧
    parse_percent (some "1,234.5%") = some (12345 / 10) ∧
    parse_market_cap (some "1.5B") = some 1500000000 ∧
    parse_market_cap (some "1.5b") = some 1500000000 ∧
    parse_market_cap (some "2T") = some 2000000000000 ∧
    parse_market_cap (some "3M") = some 3000000 ∧
    parse_market_cap (some "4K") = some 4000 ∧
    parse_market_cap (some "2,500") = some 2500 ∧
    parse_float (some "abc") = none ∧
    (∀ s : String, parse_market_cap (some (pyUpper s)) = parse_market_cap (some s)) := by
  refine ⟨⟨rfl, rfl, rfl⟩, by decide, ?_, ?_, ?_, by decide, by decide, by decide,
    by decide, by decide, by decide, by decide, by decide, by decide, ?_⟩
  · intro s h
    unfold parse_percent
    by_cases hs : s = "" ∨ s = "-"
    · simp [hs]
    · simp [hs, h]
  · intro s h
    unfold parse_float
    by_cases hs : s = "" ∨ s = "-"
    · simp [hs]
    · simp [hs, h]
  · intro s h
    unfold parse_market_cap
    by_cases hs : s = "" ∨ s = "-"
    · simp [hs]
    · simp only [hs, if_false]
      rw [h]
      rfl
  · intro s
    by_cases h0 : s = ""
    · subst h0
      decide
    · by_cases h1 : s = "-"
      · subst h1
        decide
      · have hu0 : ¬ pyUpper s = "" := fun h => h0 ((pyUpper_eq_empty_iff s).mp h)
        have hu1 : ¬ pyUpper s = "-" := fun h => h1 ((pyUpper_eq_dash_iff s).mp h)
        unfold parse_market_cap
        simp only [hu0, hu1, h0, h1, or_self, if_false]
        rw [pyRemoveChar_comma_pyUpper, pyUpper_pyUpper]

/-- C6 witness: the non-numeric-remainder rule evaluated at a concrete input. -/
theorem c6_metric_parsers_witness :
    parse_percent (some "n/a") = none :=
  c6_metric_parsers.2.2.1 "n/a" (by decide)

theorem takeDigits_eq_some : ∀ {n : Nat} {l r : List Char},
    takeDigits n l = some r ↔
      ∃ pre, l = pre ++ r ∧ pre.length = n ∧ pre.all Char.isDigit = true := by
  intro n
  induction n with
  | zero =>
      intro l r
      constructor
      · intro h
        have hlr : l = r := by simpa [takeDigits] using h
        exact ⟨[], by simp [hlr]⟩
      · rintro ⟨pre, hl, hlen, _⟩
        have hpre : pre = [] := List.length_eq_zero.mp hlen
        subst hpre
        simp only [List.nil_append] at hl
        simp [takeDigits, hl]
  | succ n ih =>
      intro l r
      cases l with
      | nil =>
          constructor
          · intro h
            simp [takeDigits] at h
          · rintro ⟨pre, hl, hlen, _⟩
            have := List.append_eq_nil.mp hl.symm
            rw [this.1] at hlen
            simp at hlen
      | cons c rest =>
          by_cases hc : c.isDigit
          · rw [show takeDigits (n + 1) (c :: rest) = takeDigits n rest by
              simp [takeDigits, hc]]
            rw [ih]
            constructor
            · rintro ⟨pre, hrest, hlen, hdig⟩
              exact ⟨c :: pre, by simp [hrest], by simp [hlen], by simp [hdig, hc]⟩
            · rintro ⟨pre, hl, hlen, hdig⟩
              cases pre with
              | nil => simp at hlen
              | cons d pretail =>
                  simp only [List.cons_append, List.cons.injEq] at hl
                  simp only [List.length_cons, Nat.succ.injEq] at hlen
                  simp only [List.all_cons, Bool.and_eq_true] at hdig
                  exact ⟨pretail, hl.2, hlen, hdig.2⟩
          · rw [show takeDigits (n + 1) (c :: rest) = none by simp [takeDigits, hc]]
            constructor
            · intro h
              simp at h
            · rintro ⟨pre, hl, hlen, hdig⟩
              cases pre with
              | nil => simp at hlen
              | cons d pretail =>
                  simp only [List.cons_append, List.cons.injEq] at hl
                  simp only [List.all_cons, Bool.and_eq_true] at hdig
                  rw [← hl.1] at hdig
                  exact absurd hdig.1 hc

theorem expectDash_eq_some {l r : List Char} :
    expectDash l = some r ↔ l = '-' :: r := by
  cases l with
  | nil => simp [expectDash]
  | cons c rest =>
      by_cases hc : c = '-'
      · subst hc
        simp [expectDash]
      · simp [expectDash, hc]

/-- The fixed-shape part of a successful `runIdCore` run: the consumed prefix. -/
theorem runIdCore_split {l r : List Char} (h : runIdCore l = some r) :
    ∃ l0, l = l0 ++ r ∧ runIdCore l0 = some [] := by
  simp only [runIdCore, Option.bind_eq_some] at h
  obtain ⟨l1, h1, l2, h2, l3, h3, l4, h4, l5, h5, l6, h6, h7⟩ := h
  obtain ⟨p4, hp4, hl4, hd4⟩ := takeDigits_eq_some.mp h1
  have he2 := expectDash_eq_some.mp h2
  obtain ⟨p2, hp2, hl2, hd2⟩ := takeDigits_eq_some.mp h3
  have he4 := expectDash_eq_some.mp h4
  obtain ⟨p2b, hp2b, hl2b, hd2b⟩ := takeDigits_eq_some.mp h5
  have he6 := expectDash_eq_some.mp h6
  obtain ⟨p6, hp6, hl6, hd6⟩ := takeDigits_eq_some.mp h7
  refine ⟨p4 ++ '-' :: (p2 ++ '-' :: (p2b ++ '-' :: p6)), ?_, ?_⟩
  · rw [hp4, he2, hp2, he4, hp2b, he6, hp6]
    simp
  · simp only [runIdCore, Option.bind_eq_some]
    refine ⟨'-' :: (p2 ++ '-' :: (p2b ++ '-' :: p6)),
      takeDigits_eq_some.mpr ⟨p4, by simp, hl4, hd4⟩,
      p2 ++ '-' :: (p2b ++ '-' :: p6), expectDash_eq_some.mpr rfl,
      '-' :: (p2b ++ '-' :: p6),
      takeDigits_eq_some.mpr ⟨p2, by simp, hl2, hd2⟩,
      p2b ++ '-' :: p6, expectDash_eq_some.mpr rfl,
      '-' :: p6, takeDigits_eq_some.mpr ⟨p2b, by simp, hl2b, hd2b⟩,
      p6, expectDash_eq_some.mpr rfl, ?_⟩
    exact takeDigits_eq_some.mpr ⟨p6, by simp, hl6, hd6⟩

/-- A successful exact run consumes the prefix, whatever follows. -/
theorem runIdCore_shift {l0 r : List Char} (h : runIdCore l0 = some []) :
    runIdCore (l0 ++ r) = some r := by
  simp only [runIdCore, Option.bind_eq_some] at h
  obtain ⟨l1, h1, l2, h2, l3, h3, l4, h4, l5, h5, l6, h6, h7⟩ := h
  obtain ⟨p4, hp4, hl4, hd4⟩ := takeDigits_eq_some.mp h1
  have he2 := expectDash_eq_some.mp h2
  obtain ⟨p2, hp2, hl2, hd2⟩ := takeDigits_eq_some.mp h3
  have he4 := expectDash_eq_some.mp h4
  obtain ⟨p2b, hp2b, hl2b, hd2b⟩ := takeDigits_eq_some.mp h5
  have he6 := expectDash_eq_some.mp h6
  obtain ⟨p6, hp6, hl6, hd6⟩ := takeDigits_eq_some.mp h7
  have hl0 : l0 = p4 ++ '-' :: (p2 ++ '-' :: (p2b ++ '-' :: p6)) := by
    rw [hp4, he2, hp2, he4, hp2b, he6, hp6]
    simp
  rw [hl0]
  simp only [runIdCore, Option.bind_eq_some]
  refine ⟨('-' :: (p2 ++ '-' :: (p2b ++ '-' :: p6))) ++ r,
    takeDigits_eq_some.mpr ⟨p4, by simp, hl4, hd4⟩,
    (p2 ++ '-' :: (p2b ++ '-' :: p6)) ++ r, expectDash_eq_some.mpr (by simp),
    ('-' :: (p2b ++ '-' :: p6)) ++ r,
    takeDigits_eq_some.mpr ⟨p2, by simp, hl2, hd2⟩,
    (p2b ++ '-' :: p6) ++ r, expectDash_eq_some.mpr (by simp),
    ('-' :: p6) ++ r, takeDigits_eq_some.mpr ⟨p2b, by simp, hl2b, hd2b⟩,
    p6 ++ r, expectDash_eq_some.mpr (by simp), ?_⟩
  exact takeDigits_eq_some.mpr ⟨p6, by simp, hl6, hd6⟩

theorem runIdMatch_characterization (s : String) :
    runIdMatch s = true ↔
      (specExactRunId s = true ∨
        ∃ s0, s = s0 ++ "\n" ∧ specExactRunId s0 = true) := by
  constructor
  · intro h
    unfold runIdMatch at h
    cases hc : runIdCore s.data with
    | none => rw [hc] at h; simp at h
    | some rest =>
        rw [hc] at h
        simp only [Bool.or_eq_true, decide_eq_true_eq] at h
        cases h with
        | inl hnil =>
            left
            unfold specExactRunId
            rw [hc, hnil]
            rfl
        | inr hnl =>
            right
            subst hnl
            obtain ⟨l0, hl0, hcore⟩ := runIdCore_split hc
            refine ⟨String.mk l0, ?_, ?_⟩
            · apply String.ext
              rw [String.data_append, hl0]
            · unfold specExactRunId
              show (match runIdCore l0 with
                | some rest => decide (rest = [])
                | none => false) = true
              rw [hcore]
              rfl
  · intro h
    cases h with
    | inl hex =>
        unfold specExactRunId at hex
        unfold runIdMatch
        cases hc : runIdCore s.data with
        | none => rw [hc] at hex; simp at hex
        | some rest =>
            rw [hc] at hex
            simp only [decide_eq_true_eq] at hex
            rw [hex]
            rfl
    | inr hnl =>
        obtain ⟨s0, hs, hex⟩ := hnl
        unfold specExactRunId at hex
        cases hc : runIdCore s0.data with
        | none => rw [hc] at hex; simp at hex
        | some rest =>
            rw [hc] at hex
            simp only [decide_eq_true_eq] at hex
            subst hex
            have hshift : runIdCore (s0.data ++ ['\n']) = some ['\n'] :=
              runIdCore_shift hc
            unfold runIdMatch
            rw [show s.data = s0.data ++ ['\n'] by rw [hs]; rfl, hshift]
            rfl

/-- C3 counterexample: the validation accepts a value with one trailing
newline, which is not of the fixed lexical form, so identifiers are not
matched against the form exactly as the claim states. -/
theorem c3_counterexample :
    ensure_valid_screen_run_id "2024-01-02-030405\n" "--screen-run-id" =
        Except.ok () ∧
      specExactRunId "2024-01-02-030405\n" = false := by
  constructor
  · decide
  · decide

/-- C3 (amended): every run identifier, caller-supplied or extracted from an
output path, must match the run-id pattern, which accepts the exact lexical
form `YYYY-MM-DD-HHMMSS` optionally followed by one trailing newline;
`2024-01-02-030405` is accepted, `2024-1-2-030405` is rejected with an error
naming the offending value; and a requested id `A` conflicting with a path id
`B` is a fatal validation error. -/
theorem c3_run_id_validation :
    (∀ s : String, runIdMatch s = true ↔
        (specExactRunId s = true ∨
          ∃ s0, s = s0 ++ "\n" ∧ specExactRunId s0 = true)) ∧
    (∀ ctx : String,
      ensure_valid_screen_run_id "2024-01-02-030405" ctx = Except.ok ()) ∧
    (∀ ctx : String,
      ensure_valid_screen_run_id "2024-1-2-030405" ctx =
        Except.error (invalidRunIdMsg ctx "2024-1-2-030405")) ∧
    (∀ (dataRoot : PathT) (fresh A B : String) (p : PathT) (args : Args),
      args.outputJson = some p →
      looks_like_directory_path p CANDIDATES_FILENAME = false →
      args.screenRunId = some A →
      pyStrip A = A → A ≠ "" →
      extract_screen_run_id_from_path p = some B →
      runIdMatch A = true → runIdMatch B = true → A ≠ B →
      resolve_output_json_path args dataRoot fresh =
        Except.error
          "--screen-run-id does not match the run folder in --output-json/--ideas-log.") := by
  refine ⟨runIdMatch_characterization, fun ctx => ?_, fun ctx => ?_, ?_⟩
  · show (if runIdMatch "2024-01-02-030405" then Except.ok ()
      else Except.error (invalidRunIdMsg ctx "2024-01-02-030405")) =
      Except.ok ()
    rw [show runIdMatch "2024-01-02-030405" = true by decide]
    rfl
  · show (if runIdMatch "2024-1-2-030405" then Except.ok ()
      else Except.error (invalidRunIdMsg ctx "2024-1-2-030405")) =
      Except.error (invalidRunIdMsg ctx "2024-1-2-030405")
    rw [show runIdMatch "2024-1-2-030405" = false by decide]
    rfl
  · intro dataRoot fresh A B p args hout hdir hreq hstrip hne hext hA hB hAB
    unfold resolve_output_json_path
    rw [hout, hreq]
    simp only [cleanTextS, hstrip, hdir, Bool.false_eq_true, if_false, hext]
    simp only [hne, if_true, ite_not]
    simp only [ensure_valid_screen_run_id, hA, hB, if_true]
    simp only [Except.bind, bind]
    simp only [hne, hAB, ne_eq, not_false_iff, and_self, if_true]
    rfl

/-- C3 witness: the conflict rule at concrete values. -/
theorem c3_run_id_validation_witness :
    resolve_output_json_path
      { screenRunId := some "2024-01-02-030405",
        outputJson := some ["idea-screens", "2024-01-02-030406",
          "finviz-candidates.json"] }
      [] "2024-01-02-030405" =
      Except.error
        "--screen-run-id does not match the run folder in --output-json/--ideas-log." :=
  c3_run_id_validation.2.2.2 [] "2024-01-02-030405" "2024-01-02-030405"
    "2024-01-02-030406"
    ["idea-screens", "2024-01-02-030406", "finviz-candidates.json"] _
    rfl (by decide) rfl (by decide) (by decide) (by decide) (by decide) (by decide)
    (by decide)

theorem lineTicker_record_entryOf (idea : JDict) :
    lineTicker (FileLine.record (entryOf (ideaTicker idea) idea)) =
      ideaTicker idea := by
  show pyUpper (cleanTextJ (aget (entryOf (ideaTicker idea) idea) "ticker")) =
    ideaTicker idea
  have hget : aget (entryOf (ideaTicker idea) idea) "ticker" =
      some (JScalar.jstr (ideaTicker idea)) := rfl
  rw [hget]
  show pyUpper (pyStrip (ideaTicker idea)) = ideaTicker idea
  unfold ideaTicker cleanGetJ
  cases hv : aget idea "ticker" with
  | none =>
      show pyUpper (pyStrip (pyUpper (cleanTextJ none))) = pyUpper (cleanTextJ none)
      decide
  | some v =>
      show pyUpper (pyStrip (pyUpper (pyStrip (pyStrOf v)))) =
        pyUpper (pyStrip (pyStrOf v))
      exact cleanUpper_fixed (pyStrOf v)

theorem stageIdeas_ticker_fresh :
    ∀ (ideas : List JDict) (existing : List String),
      ∀ e ∈ stageIdeas existing ideas,
        lineTicker (FileLine.record e) ≠ "" ∧
          lineTicker (FileLine.record e) ∉ existing := by
  intro ideas
  induction ideas with
  | nil => intro existing e he; simp [stageIdeas] at he
  | cons idea rest ih =>
      intro existing e he
      unfold stageIdeas at he
      by_cases hc : ideaTicker idea = "" ∨ ideaTicker idea ∈ existing
      · rw [if_pos hc] at he
        exact ih existing e he
      · rw [if_neg hc] at he
        push_neg at hc
        cases he with
        | head =>
            rw [lineTicker_record_entryOf]
            exact hc
        | tail _ htail =>
            have := ih (ideaTicker idea :: existing) e htail
            exact ⟨this.1, fun hmem => this.2 (List.mem_cons_of_mem _ hmem)⟩

theorem stageIdeas_tickers_nodup :
    ∀ (ideas : List JDict) (existing : List String),
      ((stageIdeas existing ideas).map
        (fun e => lineTicker (FileLine.record e))).Nodup := by
  intro ideas
  induction ideas with
  | nil => intro existing; simp [stageIdeas]
  | cons idea rest ih =>
      intro existing
      unfold stageIdeas
      by_cases hc : ideaTicker idea = "" ∨ ideaTicker idea ∈ existing
      · rw [if_pos hc]
        exact ih existing
      · rw [if_neg hc]
        simp only [List.map_cons, List.nodup_cons]
        constructor
        · rw [lineTicker_record_entryOf]
          intro hmem
          obtain ⟨e, he, hticker⟩ := List.mem_map.mp hmem
          have := (stageIdeas_ticker_fresh rest (ideaTicker idea :: existing) e he).2
          rw [hticker] at this
          exact this (List.mem_cons_self _ _)
        · exact ih (ideaTicker idea :: existing)

theorem stageIdeas_covers :
    ∀ (ideas : List JDict) (existing : List String), ∀ idea ∈ ideas,
      ideaTicker idea = "" ∨ ideaTicker idea ∈ existing ∨
        ideaTicker idea ∈ (stageIdeas existing ideas).map
          (fun e => lineTicker (FileLine.record e)) := by
  intro ideas
  induction ideas with
  | nil => intro existing idea h; simp at h
  | cons idea0 rest ih =>
      intro existing idea hmem
      unfold stageIdeas
      by_cases hc : ideaTicker idea0 = "" ∨ ideaTicker idea0 ∈ existing
      · rw [if_pos hc]
        cases hmem with
        | head =>
            cases hc with
            | inl h => exact Or.inl h
            | inr h => exact Or.inr (Or.inl h)
        | tail _ htail => exact ih existing idea htail
      · rw [if_neg hc]
        cases hmem with
        | head =>
            right; right
            simp only [List.map_cons]
            rw [lineTicker_record_entryOf]
            exact List.mem_cons_self _ _
        | tail _ htail =>
            have := ih (ideaTicker idea0 :: existing) idea htail
            cases this with
            | inl h => exact Or.inl h
            | inr h =>
                cases h with
                | inl h2 =>
                    cases List.mem_cons.mp h2 with
                    | inl heq =>
                        right; right
                        simp only [List.map_cons]
                        rw [heq, lineTicker_record_entryOf]
                        exact List.mem_cons_self _ _
                    | inr hin => exact Or.inr (Or.inl hin)
                | inr h2 =>
                    right; right
                    simp only [List.map_cons]
                    exact List.mem_cons_of_mem _ h2

theorem stageIdeas_eq_nil :
    ∀ (ideas : List JDict) (existing : List String),
      (∀ idea ∈ ideas, ideaTicker idea = "" ∨ ideaTicker idea ∈ existing) →
      stageIdeas existing ideas = [] := by
  intro ideas
  induction ideas with
  | nil => intro existing _; rfl
  | cons idea rest ih =>
      intro existing h
      unfold stageIdeas
      have hc : ideaTicker idea = "" ∨ ideaTicker idea ∈ existing :=
        h idea (List.mem_cons_self _ _)
      rw [if_pos hc]
      exact ih existing fun i hi => h i (List.mem_cons_of_mem _ hi)

theorem mem_read_existing_tickers {file : Option (List FileLine)} {t : String} :
    t ∈ read_existing_tickers file ↔
      (∃ l ∈ linesOf file, lineTicker l = t) ∧ t ≠ "" := by
  unfold read_existing_tickers
  rw [List.mem_filter]
  constructor
  · rintro ⟨hmem, hne⟩
    obtain ⟨l, hl, heq⟩ := List.mem_map.mp hmem
    exact ⟨⟨l, hl, heq⟩, by simpa using hne⟩
  · rintro ⟨⟨l, hl, heq⟩, hne⟩
    refine ⟨List.mem_map.mpr ⟨l, hl, heq⟩, ?_⟩
    simpa using hne

/-- C1: `append_selected_ideas` appends exactly the records for non-empty
tickers not already in the file nor staged earlier in the same call, with no
duplicate among them; it returns the number appended; a call that stages
nothing returns 0 and leaves the file untouched (an absent file stays
absent); a second identical call appends nothing; the no-duplicate-ticker
invariant is preserved; and blank, malformed and non-object lines are skipped
by the reader, not fatal. -/
theorem c1_queue_writer_idempotent (file : Option (List FileLine))
    (ideas : List JDict) :
    (∃ newLines : List FileLine,
        linesOf (append_selected_ideas file ideas).1 = linesOf file ++ newLines ∧
        newLines.length = (append_selected_ideas file ideas).2 ∧
        (∀ l ∈ newLines, lineTicker l ≠ "" ∧
          lineTicker l ∉ read_existing_tickers file) ∧
        (newLines.map lineTicker).Nodup) ∧
    ((append_selected_ideas file ideas).2 = 0 →
      (append_selected_ideas file ideas).1 = file) ∧
    (append_selected_ideas (append_selected_ideas file ideas).1 ideas =
      ((append_selected_ideas file ideas).1, 0)) ∧
    (queueTickersNodup file →
      queueTickersNodup (append_selected_ideas file ideas).1) ∧
    (∀ ls : List FileLine,
      read_existing_tickers (some (FileLine.bad :: ls)) =
          read_existing_tickers (some ls) ∧
        read_existing_tickers (some (FileLine.blank :: ls)) =
          read_existing_tickers (some ls) ∧
        read_existing_tickers (some (FileLine.nonDict :: ls)) =
          read_existing_tickers (some ls)) := by
  have hstagedTick : ∀ e ∈ stageIdeas (read_existing_tickers file) ideas,
      lineTicker (FileLine.record e) ≠ "" ∧
        lineTicker (FileLine.record e) ∉ read_existing_tickers file :=
    stageIdeas_ticker_fresh ideas (read_existing_tickers file)
  by_cases hempty : (stageIdeas (read_existing_tickers file) ideas).isEmpty
  · have hnil : stageIdeas (read_existing_tickers file) ideas = [] :=
      List.isEmpty_iff.mp hempty
    have happ : append_selected_ideas file ideas = (file, 0) := by
      unfold append_selected_ideas
      rw [hnil]
      rfl
    rw [happ]
    refine ⟨⟨[], by simp, by simp, by simp, by simp⟩, fun _ => rfl, ?_, fun h => h,
      fun ls => ⟨rfl, rfl, rfl⟩⟩
    show append_selected_ideas file ideas = (file, 0)
    exact happ
  · have hne : ¬ stageIdeas (read_existing_tickers file) ideas = [] := by
      intro h
      rw [h] at hempty
      exact hempty rfl
    have happ : append_selected_ideas file ideas =
        (some (linesOf file ++
          (stageIdeas (read_existing_tickers file) ideas).map FileLine.record),
         (stageIdeas (read_existing_tickers file) ideas).length) := by
      unfold append_selected_ideas
      rw [if_neg (by simpa [List.isEmpty_iff] using hne)]
      rfl
    set staged := stageIdeas (read_existing_tickers file) ideas with hstagedDef
    have hlines : linesOf (append_selected_ideas file ideas).1 =
        linesOf file ++ staged.map FileLine.record := by
      rw [happ]
      rfl
    have hmemNew : ∀ t, t ∈ read_existing_tickers (append_selected_ideas file ideas).1 ↔
        t ∈ read_existing_tickers file ∨
          t ∈ staged.map (fun e => lineTicker (FileLine.record e)) := by
      intro t
      rw [mem_read_existing_tickers, mem_read_existing_tickers]
      constructor
      · rintro ⟨⟨l, hl, hlt⟩, htne⟩
        rw [hlines] at hl
        cases List.mem_append.mp hl with
        | inl hold => exact Or.inl ⟨⟨l, hold, hlt⟩, htne⟩
        | inr hnew =>
            obtain ⟨e, he, heq⟩ := List.mem_map.mp hnew
            right
            rw [List.mem_map]
            exact ⟨e, he, by rw [heq, hlt]⟩
      · rintro (⟨⟨l, hl, hlt⟩, htne⟩ | hnew)
        · refine ⟨⟨l, ?_, hlt⟩, htne⟩
          rw [hlines]
          exact List.mem_append.mpr (Or.inl hl)
        · obtain ⟨e, he, heq⟩ := List.mem_map.mp hnew
          refine ⟨⟨FileLine.record e, ?_, heq⟩, ?_⟩
          · rw [hlines]
            exact List.mem_append.mpr (Or.inr (List.mem_map.mpr ⟨e, he, rfl⟩))
          · rw [← heq]
            exact (hstagedTick e he).1
    refine ⟨⟨staged.map FileLine.record, hlines, by rw [happ]; simp, ?_, ?_⟩,
      ?_, ?_, ?_, fun ls => ⟨rfl, rfl, rfl⟩⟩
    · intro l hl
      obtain ⟨e, he, heq⟩ := List.mem_map.mp hl
      rw [← heq]
      exact hstagedTick e he
    · rw [List.map_map]
      exact stageIdeas_tickers_nodup ideas (read_existing_tickers file)
    · intro h0
      rw [happ] at h0
      simp only at h0
      exact absurd (List.length_eq_zero.mp h0) hne
    · have hcov : ∀ idea ∈ ideas, ideaTicker idea = "" ∨
          ideaTicker idea ∈ read_existing_tickers (append_selected_ideas file ideas).1 := by
        intro idea hmem
        cases stageIdeas_covers ideas (read_existing_tickers file) idea hmem with
        | inl h => exact Or.inl h
        | inr h =>
            right
            rw [hmemNew]
            exact h
      set X := (append_selected_ideas file ideas).1 with hX
      have hstage2 : stageIdeas (read_existing_tickers X) ideas = [] :=
        stageIdeas_eq_nil ideas _ hcov
      show (if (stageIdeas (read_existing_tickers X) ideas).isEmpty then (X, 0)
        else (some (append_jsonl_lines X
          ((stageIdeas (read_existing_tickers X) ideas).map FileLine.record)),
          (stageIdeas (read_existing_tickers X) ideas).length)) = (X, 0)
      rw [hstage2]
      rfl
    · intro hinv
      show (((linesOf (append_selected_ideas file ideas).1).map lineTicker).filter
        (fun t => t ≠ "")).Nodup
      rw [hlines]
      rw [List.map_append, List.filter_append]
      rw [List.nodup_append]
      refine ⟨hinv, ?_, ?_⟩
      · rw [List.map_map]
        apply List.Nodup.filter
        exact stageIdeas_tickers_nodup ideas (read_existing_tickers file)
      · intro t ht1 ht2
        have ht2m := List.mem_of_mem_filter ht2
        obtain ⟨l, hl, heq⟩ := List.mem_map.mp ht2m
        obtain ⟨e, he, heqe⟩ := List.mem_map.mp hl
        have hfresh := (hstagedTick e he).2
        rw [heqe] at hfresh
        rw [heq] at hfresh
        exact hfresh ht1

/-- C1 witness: a concrete run of the theorem, the invariant hypothesis
discharged on an empty file. -/
theorem c1_queue_writer_witness :
    queueTickersNodup
      (append_selected_ideas (some [])
        [[("ticker", JScalar.jstr " aapl ")], [("ticker", JScalar.jstr "AAPL")]]).1 :=
  (c1_queue_writer_idempotent (some [])
    [[("ticker", JScalar.jstr " aapl ")], [("ticker", JScalar.jstr "AAPL")]]).2.2.2.1
    (by decide)

/-- The loop of `merge_exchange_rows` in closed form: starting at `page` with
`fuel` pages left, it fetches exactly the pages every predecessor of which
(from `page` on) was full, and merges exactly those of them with at least one
row per view. -/
theorem mergePagesAux_closed (name : String) (oracle : Nat → Nat → List Row) :
    ∀ (fuel page : Nat) (merged : List (String × Row)),
      mergePagesAux name oracle fuel page merged =
        ((((List.range fuel).map (fun k => page + k)).filter
            (fun i => decide (∀ j, j < i → page ≤ j →
              ROWS_PER_PAGE ≤ viewMin oracle j))).flatMap
            (fun i => VIEWS.map (fun v => (v, pageStartRow i))),
         (((((List.range fuel).map (fun k => page + k)).filter
            (fun i => decide (∀ j, j < i → page ≤ j →
              ROWS_PER_PAGE ≤ viewMin oracle j))).filter
            (fun i => decide (1 ≤ viewMin oracle i))).foldl
            (fun m i => mergePage name m (pageRowsOf oracle i)) merged)) := by
  intro fuel
  induction fuel with
  | zero =>
      intro page merged
      simp [mergePagesAux]
  | succ fuel ih =>
      intro page merged
      have hrange : (List.range (fuel + 1)).map (fun k => page + k) =
          page :: (List.range fuel).map (fun k => (page + 1) + k) := by
        rw [List.range_succ_eq_map]
        simp only [List.map_cons, Nat.add_zero, List.map_map]
        congr 1
        apply List.map_congr_left
        intro k _
        simp only [Function.comp]
        omega
      have hheadTrue : decide (∀ j, j < page → page ≤ j →
          ROWS_PER_PAGE ≤ viewMin oracle j) = true := by
        simp only [decide_eq_true_eq]
        intro j h1 h2
        omega
      rw [hrange, List.filter_cons, hheadTrue, if_pos rfl]
      conv_lhs => rw [mergePagesAux]
      by_cases h0 : viewMin oracle page = 0
      · rw [if_pos h0]
        have htail : ((List.range fuel).map (fun k => (page + 1) + k)).filter
            (fun i => decide (∀ j, j < i → page ≤ j →
              ROWS_PER_PAGE ≤ viewMin oracle j)) = [] := by
          rw [List.filter_eq_nil_iff]
          intro i hi
          obtain ⟨k, _, hk⟩ := List.mem_map.mp hi
          simp only [decide_eq_true_eq]
          intro hall
          have := hall page (by omega) (Nat.le_refl page)
          unfold ROWS_PER_PAGE at this
          omega
        rw [htail]
        have hpageDropped : decide (1 ≤ viewMin oracle page) = false := by
          simp only [decide_eq_false_iff_not]
          omega
        simp [List.filter_cons, hpageDropped]
      · rw [if_neg h0]
        by_cases hstop : viewMin oracle page < ROWS_PER_PAGE
        · rw [if_pos hstop]
          have htail : ((List.range fuel).map (fun k => (page + 1) + k)).filter
              (fun i => decide (∀ j, j < i → page ≤ j →
                ROWS_PER_PAGE ≤ viewMin oracle j)) = [] := by
            rw [List.filter_eq_nil_iff]
            intro i hi
            obtain ⟨k, _, hk⟩ := List.mem_map.mp hi
            simp only [decide_eq_true_eq]
            intro hall
            have := hall page (by omega) (Nat.le_refl page)
            omega
          rw [htail]
          have hpageKept : decide (1 ≤ viewMin oracle page) = true := by
            simp only [decide_eq_true_eq]
            omega
          simp [List.filter_cons, hpageKept]
        · rw [if_neg hstop]
          have hfull : ROWS_PER_PAGE ≤ viewMin oracle page := Nat.le_of_not_lt hstop
          have htail : ((List.range fuel).map (fun k => (page + 1) + k)).filter
              (fun i => decide (∀ j, j < i → page ≤ j →
                ROWS_PER_PAGE ≤ viewMin oracle j)) =
            ((List.range fuel).map (fun k => (page + 1) + k)).filter
              (fun i => decide (∀ j, j < i → page + 1 ≤ j →
                ROWS_PER_PAGE ≤ viewMin oracle j)) := by
            apply List.filter_congr
            intro i hi
            obtain ⟨k, _, hk⟩ := List.mem_map.mp hi
            simp only [decide_eq_decide]
            constructor
            · intro hall j hj1 hj2
              exact hall j hj1 (by omega)
            · intro hall j hj1 hj2
              rcases Nat.eq_or_lt_of_le hj2 with heq | hlt
              · rw [← heq]
                exact hfull
              · exact hall j hj1 hlt
          rw [ih (page + 1) (mergePage name merged (pageRowsOf oracle page)), htail]
          have hpageKept : decide (1 ≤ viewMin oracle page) = true := by
            simp only [decide_eq_true_eq]
            unfold ROWS_PER_PAGE at hfull
            omega
          simp [List.filter_cons, hpageKept]

theorem aget_eq_some_mem {α β : Type} [DecidableEq α] {m : List (α × β)} {k : α}
    {v : β} (h : aget m k = some v) : k ∈ m.map Prod.fst := by
  unfold aget at h
  cases hf : m.find? (fun e => decide (e.1 = k)) with
  | none => rw [hf] at h; simp at h
  | some e =>
      have hmem := List.mem_of_find?_eq_some hf
      have hp := List.find?_some hf
      simp only [decide_eq_true_eq] at hp
      exact List.mem_map.mpr ⟨e, hmem, hp⟩

theorem aget_eq_none_not_mem {α β : Type} [DecidableEq α] {m : List (α × β)}
    {k : α} (h : aget m k = none) : k ∉ m.map Prod.fst := by
  intro hmem
  obtain ⟨e, he, hk⟩ := List.mem_map.mp hmem
  unfold aget at h
  cases hf : m.find? (fun e => decide (e.1 = k)) with
  | some e2 => rw [hf] at h; simp at h
  | none =>
      have := List.find?_eq_none.mp hf e he
      simp only [decide_eq_true_eq] at this
      exact this hk

theorem aset_map_fst_mem {α β : Type} [DecidableEq α] :
    ∀ (m : List (α × β)) (k : α) (v : β), k ∈ m.map Prod.fst →
      (aset m k v).map Prod.fst = m.map Prod.fst := by
  intro m
  induction m with
  | nil => intro k v h; simp at h
  | cons e rest ih =>
      intro k v h
      obtain ⟨k0, v0⟩ := e
      unfold aset
      by_cases hk : k0 = k
      · rw [if_pos hk]
        simp
      · rw [if_neg hk]
        simp only [List.map_cons]
        congr 1
        apply ih
        simp only [List.map_cons, List.mem_cons] at h
        cases h with
        | inl h => exact absurd h.symm hk
        | inr h => exact h

theorem aget_aset_self {α β : Type} [DecidableEq α] :
    ∀ (m : List (α × β)) (k : α) (v : β), aget (aset m k v) k = some v := by
  intro m
  induction m with
  | nil => intro k v; simp [aset, aget, List.find?]
  | cons e rest ih =>
      intro k v
      obtain ⟨k0, v0⟩ := e
      unfold aset
      by_cases hk : k0 = k
      · rw [if_pos hk]
        simp [aget, List.find?, hk]
      · rw [if_neg hk]
        unfold aget
        simp only [List.find?]
        rw [show (decide (k0 = k)) = false by simp [hk]]
        exact ih k v

theorem aget_aset_ne {α β : Type} [DecidableEq α] :
    ∀ (m : List (α × β)) (k : α) (v : β) (t : α), t ≠ k →
      aget (aset m k v) t = aget m t := by
  intro m
  induction m with
  | nil =>
      intro k v t ht
      simp only [aset, aget, List.find?]
      rw [decide_eq_false (fun h => ht h.symm)]
  | cons e rest ih =>
      intro k v t ht
      obtain ⟨k0, v0⟩ := e
      unfold aset
      by_cases hk : k0 = k
      · rw [if_pos hk]
        unfold aget
        simp only [List.find?]
        rw [show (decide (k0 = t)) = false from
          decide_eq_false (by rw [hk]; exact fun h => ht h.symm)]
      · rw [if_neg hk]
        unfold aget
        simp only [List.find?]
        cases hd : decide (k0 = t) with
        | true => rfl
        | false => exact ih k v t ht

theorem aget_append_single_self {α β : Type} [DecidableEq α] :
    ∀ (m : List (α × β)) (k : α) (v : β), aget m k = none →
      aget (m ++ [(k, v)]) k = some v := by
  intro m
  induction m with
  | nil => intro k v _; simp [aget, List.find?]
  | cons e rest ih =>
      intro k v h
      obtain ⟨k0, v0⟩ := e
      unfold aget at h ⊢
      simp only [List.find?, List.cons_append] at h ⊢
      cases hd : decide (k0 = k) with
      | true => rw [hd] at h; simp at h
      | false =>
          rw [hd] at h
          exact ih k v h

theorem aget_append_single_ne {α β : Type} [DecidableEq α] :
    ∀ (m : List (α × β)) (k : α) (v : β) (t : α), t ≠ k →
      aget (m ++ [(k, v)]) t = aget m t := by
  intro m
  induction m with
  | nil =>
      intro k v t ht
      simp only [aget, List.nil_append, List.find?]
      rw [decide_eq_false (fun h => ht h.symm)]
  | cons e rest ih =>
      intro k v t ht
      obtain ⟨k0, v0⟩ := e
      unfold aget
      simp only [List.find?, List.cons_append]
      cases hd : decide (k0 = t) with
      | true => rfl
      | false => exact ih k v t ht

theorem mem_keys_mergeRow (name : String) (m : List (String × Row)) (row : Row)
    (t : String) :
    t ∈ (mergeRow name m row).map Prod.fst ↔
      t ∈ m.map Prod.fst ∨ (rowTicker row ≠ "" ∧ t = rowTicker row) := by
  unfold mergeRow
  by_cases h0 : rowTicker row = ""
  · rw [if_pos h0]
    simp [h0]
  · rw [if_neg h0]
    cases hget : aget m (rowTicker row) with
    | some slot =>
        rw [aset_map_fst_mem m (rowTicker row) _ (aget_eq_some_mem hget)]
        constructor
        · exact Or.inl
        · intro h
          cases h with
          | inl h => exact h
          | inr h => rw [h.2]; exact aget_eq_some_mem hget
    | none =>
        simp only [List.map_append, List.map_cons, List.map_nil]
        rw [List.mem_append]
        simp [h0, List.mem_singleton]

theorem nodup_keys_mergeRow (name : String) (m : List (String × Row)) (row : Row)
    (h : (m.map Prod.fst).Nodup) : ((mergeRow name m row).map Prod.fst).Nodup := by
  unfold mergeRow
  by_cases h0 : rowTicker row = ""
  · rw [if_pos h0]
    exact h
  · rw [if_neg h0]
    cases hget : aget m (rowTicker row) with
    | some slot =>
        rw [aset_map_fst_mem m (rowTicker row) _ (aget_eq_some_mem hget)]
        exact h
    | none =>
        simp only [List.map_append, List.map_cons, List.map_nil]
        apply List.Nodup.append h (List.nodup_singleton _)
        intro t ht1 ht2
        simp only [List.mem_singleton] at ht2
        subst ht2
        exact aget_eq_none_not_mem hget ht1

theorem mem_keys_foldl_rows (name : String) :
    ∀ (rows : List Row) (m : List (String × Row)) (t : String),
      t ∈ (rows.foldl (mergeRow name) m).map Prod.fst ↔
        t ∈ m.map Prod.fst ∨ ∃ row ∈ rows, rowTicker row = t ∧ t ≠ "" := by
  intro rows
  induction rows with
  | nil => intro m t; simp
  | cons row rest ih =>
      intro m t
      rw [List.foldl_cons, ih]
      rw [mem_keys_mergeRow]
      constructor
      · intro h
        cases h with
        | inl h =>
            cases h with
            | inl h => exact Or.inl h
            | inr h =>
                right
                exact ⟨row, List.mem_cons_self _ _, h.2.symm, h.2 ▸ h.1⟩
        | inr h =>
            obtain ⟨r, hr, hrt, hne⟩ := h
            exact Or.inr ⟨r, List.mem_cons_of_mem _ hr, hrt, hne⟩
      · intro h
        cases h with
        | inl h => exact Or.inl (Or.inl h)
        | inr h =>
            obtain ⟨r, hr, hrt, hne⟩ := h
            cases List.mem_cons.mp hr with
            | inl heq =>
                subst heq
                exact Or.inl (Or.inr ⟨hrt ▸ hne, hrt.symm⟩)
            | inr hmem => exact Or.inr ⟨r, hmem, hrt, hne⟩

theorem nodup_keys_foldl_rows (name : String) :
    ∀ (rows : List Row) (m : List (String × Row)),
      (m.map Prod.fst).Nodup → ((rows.foldl (mergeRow name) m).map Prod.fst).Nodup := by
  intro rows
  induction rows with
  | nil => intro m h; exact h
  | cons row rest ih =>
      intro m h
      rw [List.foldl_cons]
      exact ih _ (nodup_keys_mergeRow name m row h)

theorem mergePage_eq_foldl (name : String) (m : List (String × Row))
    (pages : List (List Row)) :
    mergePage name m pages = pages.flatten.foldl (mergeRow name) m := by
  rw [List.foldl_flatten]
  rfl

theorem mem_keys_mergePage (name : String) (m : List (String × Row))
    (pages : List (List Row)) (t : String) :
    t ∈ (mergePage name m pages).map Prod.fst ↔
      t ∈ m.map Prod.fst ∨
        ∃ rows ∈ pages, ∃ row ∈ rows, rowTicker row = t ∧ t ≠ "" := by
  rw [mergePage_eq_foldl, mem_keys_foldl_rows]
  constructor
  · intro h
    cases h with
    | inl h => exact Or.inl h
    | inr h =>
        obtain ⟨row, hrow, hrt, hne⟩ := h
        obtain ⟨rows, hrows, hrowmem⟩ := List.mem_flatten.mp hrow
        exact Or.inr ⟨rows, hrows, row, hrowmem, hrt, hne⟩
  · intro h
    cases h with
    | inl h => exact Or.inl h
    | inr h =>
        obtain ⟨rows, hrows, row, hrowmem, hrt, hne⟩ := h
        exact Or.inr ⟨row, List.mem_flatten.mpr ⟨rows, hrows, hrowmem⟩, hrt, hne⟩

theorem mem_keys_foldl_pages (name : String) (oracle : Nat → Nat → List Row) :
    ∀ (idxs : List Nat) (m : List (String × Row)) (t : String),
      t ∈ ((idxs.foldl (fun acc i => mergePage name acc (pageRowsOf oracle i)) m).map
          Prod.fst) ↔
        t ∈ m.map Prod.fst ∨
          ∃ i ∈ idxs, ∃ rows ∈ pageRowsOf oracle i, ∃ row ∈ rows,
            rowTicker row = t ∧ t ≠ "" := by
  intro idxs
  induction idxs with
  | nil => intro m t; simp
  | cons i rest ih =>
      intro m t
      rw [List.foldl_cons, ih, mem_keys_mergePage]
      constructor
      · intro h
        cases h with
        | inl h =>
            cases h with
            | inl h => exact Or.inl h
            | inr h =>
                obtain ⟨rows, hrows, row, hrow, hrt, hne⟩ := h
                exact Or.inr ⟨i, List.mem_cons_self _ _, rows, hrows, row, hrow, hrt, hne⟩
        | inr h =>
            obtain ⟨j, hj, rest'⟩ := h
            exact Or.inr ⟨j, List.mem_cons_of_mem _ hj, rest'⟩
      · intro h
        cases h with
        | inl h => exact Or.inl (Or.inl h)
        | inr h =>
            obtain ⟨j, hj, rows, hrows, row, hrow, hrt, hne⟩ := h
            cases List.mem_cons.mp hj with
            | inl heq =>
                subst heq
                exact Or.inl (Or.inr ⟨rows, hrows, row, hrow, hrt, hne⟩)
            | inr hmem => exact Or.inr ⟨j, hmem, rows, hrows, row, hrow, hrt, hne⟩

theorem nodup_keys_foldl_pages (name : String) (oracle : Nat → Nat → List Row) :
    ∀ (idxs : List Nat) (m : List (String × Row)),
      (m.map Prod.fst).Nodup →
      ((idxs.foldl (fun acc i => mergePage name acc (pageRowsOf oracle i)) m).map
        Prod.fst).Nodup := by
  intro idxs
  induction idxs with
  | nil => intro m h; exact h
  | cons i rest ih =>
      intro m h
      rw [List.foldl_cons]
      apply ih
      rw [mergePage_eq_foldl]
      exact nodup_keys_foldl_rows name _ m h

theorem fetchedPages_eq (oracle : Nat → Nat → List Row) (maxPages : Nat) :
    ((List.range maxPages).map (fun k => 0 + k)).filter
        (fun i => decide (∀ j, j < i → 0 ≤ j → ROWS_PER_PAGE ≤ viewMin oracle j)) =
      fetchedPages oracle maxPages := by
  unfold fetchedPages
  have hm : (List.range maxPages).map (fun k => 0 + k) = List.range maxPages := by
    have : (fun k => 0 + k) = fun (k : Nat) => k := by
      funext k
      omega
    rw [this, List.map_id']
  rw [hm]
  apply List.filter_congr
  intro i _
  simp only [decide_eq_decide]
  constructor
  · intro h j hj
    exact h j hj (Nat.zero_le j)
  · intro h j hj _
    exact h j hj

/-- C7: for every oracle and page limit, the aggregator fetches every view of
the pages up to the first non-full page (inclusive) within the limit; a page
with an empty view contributes nothing, a short but non-empty final page is
still merged; the output is keyed by ticker with no duplicate key; and a
ticker appears exactly when some merged page has a row carrying it
(rows without a ticker are discarded). -/
theorem c7_row_aggregator (name : String) (oracle : Nat → Nat → List Row)
    (maxPages : Nat) :
    (merge_exchange_rows name oracle maxPages).1 =
        (fetchedPages oracle maxPages).flatMap
          (fun i => VIEWS.map (fun v => (v, pageStartRow i))) ∧
    mergedMap name oracle maxPages =
        (mergedPages oracle maxPages).foldl
          (fun m i => mergePage name m (pageRowsOf oracle i)) [] ∧
    (merge_exchange_rows name oracle maxPages).2 =
        (mergedMap name oracle maxPages).map Prod.snd ∧
    ((mergedMap name oracle maxPages).map Prod.fst).Nodup ∧
    (∀ t : String, t ∈ (mergedMap name oracle maxPages).map Prod.fst ↔
      (t ≠ "" ∧ ∃ i ∈ mergedPages oracle maxPages,
        ∃ rows ∈ pageRowsOf oracle i, ∃ row ∈ rows, rowTicker row = t)) := by
  have hclosed := mergePagesAux_closed name oracle maxPages 0 []
  have h1 : (merge_exchange_rows name oracle maxPages).1 =
      (fetchedPages oracle maxPages).flatMap
        (fun i => VIEWS.map (fun v => (v, pageStartRow i))) := by
    show (mergePagesAux name oracle maxPages 0 []).1 = _
    rw [hclosed]
    rw [show ((List.range maxPages).map (fun k => 0 + k)).filter
        (fun i => decide (∀ j, j < i → 0 ≤ j → ROWS_PER_PAGE ≤ viewMin oracle j)) =
      fetchedPages oracle maxPages from fetchedPages_eq oracle maxPages]
  have h2 : mergedMap name oracle maxPages =
      (mergedPages oracle maxPages).foldl
        (fun m i => mergePage name m (pageRowsOf oracle i)) [] := by
    show (mergePagesAux name oracle maxPages 0 []).2 = _
    rw [hclosed]
    unfold mergedPages
    rw [show ((List.range maxPages).map (fun k => 0 + k)).filter
        (fun i => decide (∀ j, j < i → 0 ≤ j → ROWS_PER_PAGE ≤ viewMin oracle j)) =
      fetchedPages oracle maxPages from fetchedPages_eq oracle maxPages]
  refine ⟨h1, h2, rfl, ?_, ?_⟩
  · rw [h2]
    exact nodup_keys_foldl_pages name oracle _ [] (by simp)
  · intro t
    rw [h2, mem_keys_foldl_pages]
    simp only [List.map_nil, List.not_mem_nil, false_or]
    constructor
    · rintro ⟨i, hi, rows, hrows, row, hrow, hrt, hne⟩
      exact ⟨hne, i, hi, rows, hrows, row, hrow, hrt⟩
    · rintro ⟨hne, i, hi, rows, hrows, row, hrow, hrt⟩
      exact ⟨i, hi, rows, hrows, row, hrow, hrt, hne⟩


theorem aget_mergeRow (name : String) (m : List (String × Row)) (row : Row)
    (t : String) (ht : t ≠ "") :
    aget (mergeRow name m row) t =
      if rowTicker row = t then
        some (pyUpdate ((aget m t).getD (initialSlot name t)) row)
      else aget m t := by
  unfold mergeRow
  by_cases h0 : rowTicker row = ""
  · rw [if_pos h0, if_neg (by rw [h0]; exact fun h => ht h.symm)]
  · rw [if_neg h0]
    by_cases heq : rowTicker row = t
    · rw [if_pos heq, heq]
      cases hget : aget m t with
      | some slot => exact aget_aset_self m t (pyUpdate slot row)
      | none => exact aget_append_single_self m t _ hget
    · rw [if_neg heq]
      cases hget : aget m (rowTicker row) with
      | some slot =>
          rw [show aget (match some slot with
            | some slot => aset m (rowTicker row) (pyUpdate slot row)
            | none => m ++ [(rowTicker row,
                pyUpdate [("Ticker", rowTicker row), ("Exchange", name)] row)]) t =
            aget (aset m (rowTicker row) (pyUpdate slot row)) t from rfl]
          exact aget_aset_ne m (rowTicker row) _ t (fun h => heq h.symm)
      | none =>
          rw [show aget (match (none : Option Row) with
            | some slot => aset m (rowTicker row) (pyUpdate slot row)
            | none => m ++ [(rowTicker row,
                pyUpdate [("Ticker", rowTicker row), ("Exchange", name)] row)]) t =
            aget (m ++ [(rowTicker row,
              pyUpdate [("Ticker", rowTicker row), ("Exchange", name)] row)]) t
            from rfl]
          exact aget_append_single_ne m (rowTicker row) _ t (fun h => heq h.symm)

theorem aget_foldl_rows (name t : String) (ht : t ≠ "") :
    ∀ (rows : List Row) (m : List (String × Row)),
      aget (rows.foldl (mergeRow name) m) t =
        slotAfter name t (aget m t)
          (rows.filter (fun r => decide (rowTicker r = t))) := by
  intro rows
  induction rows with
  | nil => intro m; rfl
  | cons row rest ih =>
      intro m
      rw [List.foldl_cons, ih, List.filter_cons]
      by_cases heq : rowTicker row = t
      · rw [show (decide (rowTicker row = t)) = true from decide_eq_true heq,
          if_pos rfl]
        rw [aget_mergeRow name m row t ht, if_pos heq]
        rfl
      · rw [show (decide (rowTicker row = t)) = false from decide_eq_false heq]
        rw [aget_mergeRow name m row t ht, if_neg heq]
        simp

theorem foldl_pages_eq_foldl_rows (name : String) (oracle : Nat → Nat → List Row) :
    ∀ (idxs : List Nat) (m : List (String × Row)),
      idxs.foldl (fun acc i => mergePage name acc (pageRowsOf oracle i)) m =
        (idxs.flatMap (fun i => (pageRowsOf oracle i).flatten)).foldl
          (mergeRow name) m := by
  intro idxs
  induction idxs with
  | nil => intro m; rfl
  | cons i rest ih =>
      intro m
      rw [List.foldl_cons, List.flatMap_cons, List.foldl_append, ih,
        mergePage_eq_foldl]

theorem mergedMap_eq_foldl (name : String) (oracle : Nat → Nat → List Row)
    (maxPages : Nat) :
    mergedMap name oracle maxPages =
      (mergedPages oracle maxPages).foldl
        (fun m i => mergePage name m (pageRowsOf oracle i)) [] := by
  show (mergePagesAux name oracle maxPages 0 []).2 = _
  rw [mergePagesAux_closed name oracle maxPages 0 []]
  unfold mergedPages
  rw [show ((List.range maxPages).map (fun k => 0 + k)).filter
      (fun i => decide (∀ j, j < i → 0 ≤ j → ROWS_PER_PAGE ≤ viewMin oracle j)) =
    fetchedPages oracle maxPages from fetchedPages_eq oracle maxPages]

/-- C8 counterexample: with a ticker on two merged pages carrying conflicting
values for field `X`, the final record holds the later page's value, not the
first-seen page's. -/
theorem c8_counterexample :
    aget (mergedMap "NASDAQ" lastWriteOracle 4) "A1" =
        some [("Ticker", "A1"), ("Exchange", "NASDAQ"), ("X", "new")] ∧
      (lastWriteOracle 111 1).head? = some [("Ticker", "A1"), ("X", "old")] := by
  constructor
  · decide
  · decide

/-- C8 (amended): across the pages of one exchange the output is the
de-duplicated union keyed by ticker under the shallow-merge rule applied
cumulatively: a ticker's record is its initial `{Ticker, Exchange}` slot
folded with every row carrying that ticker, in traversal order, each row
overwriting shared keys (last write wins) — later pages overwrite values
earlier pages set; they do not only fill in missing keys. -/
theorem c8_cross_page_merge (name : String) (oracle : Nat → Nat → List Row)
    (maxPages : Nat) (t : String) (ht : t ≠ "") :
    aget (mergedMap name oracle maxPages) t =
      slotAfter name t none
        ((mergedRowsInOrder oracle maxPages).filter
          (fun r => decide (rowTicker r = t))) := by
  rw [mergedMap_eq_foldl, foldl_pages_eq_foldl_rows]
  rw [aget_foldl_rows name t ht]
  rfl

/-- C8 witness: the amended rule applied at the two-page oracle. -/
theorem c8_cross_page_merge_witness :
    aget (mergedMap "NASDAQ" lastWriteOracle 4) "A1" =
      slotAfter "NASDAQ" "A1" none
        ((mergedRowsInOrder lastWriteOracle 4).filter
          (fun r => decide (rowTicker r = "A1"))) :=
  c8_cross_page_merge "NASDAQ" lastWriteOracle 4 "A1" (by decide)

theorem getFile_removeFile_ne (fs : FS) (q p : PathT) (h : p ≠ q) :
    getFile (removeFile fs q) p = getFile fs p := by
  unfold getFile removeFile aget
  simp only []
  congr 1
  induction fs.files with
  | nil => rfl
  | cons e rest ih =>
      rw [List.filter_cons]
      by_cases he : e.1 = q
      · rw [show (decide (e.1 ≠ q)) = false by simp [he]]
        simp only [Bool.false_eq_true, if_false]
        rw [List.find?_cons]
        rw [show (decide (e.1 = p)) = false by
          simp only [decide_eq_false_iff_not]
          rw [he]
          exact fun hq => h hq.symm]
        exact ih
      · rw [show (decide (e.1 ≠ q)) = true by simp [he]]
        simp only [if_true]
        rw [List.find?_cons, List.find?_cons]
        cases hd : decide (e.1 = p) with
        | true => rfl
        | false => exact ih

theorem getFile_removeFile_self (fs : FS) (q : PathT) :
    getFile (removeFile fs q) q = none := by
  unfold getFile removeFile aget
  simp only [Option.map_eq_none']
  rw [List.find?_eq_none]
  intro e he
  have := List.of_mem_filter he
  simp only [decide_eq_true_eq] at this ⊢
  exact this

theorem existsF_removeFile_true (fs : FS) (q p : PathT)
    (h : existsF (removeFile fs q) p = true) : existsF fs p = true := by
  by_cases hpq : p = q
  · subst hpq
    unfold existsF at h
    rw [show aget (removeFile fs p).files p = getFile (removeFile fs p) p from rfl,
      getFile_removeFile_self] at h
    simp at h
  · unfold existsF at h ⊢
    rw [show aget (removeFile fs q).files p = getFile (removeFile fs q) p from rfl,
      getFile_removeFile_ne fs q p hpq] at h
    exact h

/-- C9 counterexample: when the snapshot path coincides with the queue file,
cleanup deletes the queue file itself — the code guards only the
selection-input path, not the snapshot path, against equality with the queue
file. -/
theorem c9_counterexample :
    existsF c9FS c9Queue = true ∧
    cleanup_artifacts c9FS c9Queue none c9Queue false =
      Except.ok ((⟨[], []⟩ : FS), [c9Queue]) := by
  constructor
  · decide
  · decide

theorem cleanup_step_candidate_props (fs : FS) (out runDir : PathT)
    (hlock : fs.locked = []) :
    (existsF fs out && isWithin out runDir) = true →
      cleanup_step_candidate fs out runDir =
        Except.ok (removeFile fs out, [out]) := by
  intro h
  unfold cleanup_step_candidate
  rw [if_pos h]
  unfold unlinkF
  rw [hlock]
  simp [Except.map]

theorem cleanup_step_candidate_skip (fs : FS) (out runDir : PathT) :
    (existsF fs out && isWithin out runDir) = false →
      cleanup_step_candidate fs out runDir = Except.ok (fs, []) := by
  intro h
  unfold cleanup_step_candidate
  rw [h]
  rfl

/-- C9 (amended): with the keep-artifacts opt-out set nothing is deleted;
otherwise only the snapshot and the selection-input file can be deleted, each
only if it exists and resolves inside the run directory of the queue file;
the selection-input is additionally deleted only if it differs from the queue
file and from the snapshot; the snapshot however is deleted whenever it is
inside the run directory — even when it coincides with the queue file, which
is therefore deletable; all other files are untouched. -/
theorem c9_cleanup_scope (fs : FS) (out scr : PathT) (selOpt : Option PathT)
    (keep : Bool) (hlock : fs.locked = []) :
    ∃ fs2 cleaned,
      cleanup_artifacts fs out selOpt scr keep = Except.ok (fs2, cleaned) ∧
      (keep = true → fs2 = fs ∧ cleaned = []) ∧
      (∀ p ∈ cleaned, (p = out ∨ selOpt = some p) ∧
        isWithin p scr.dropLast = true ∧ existsF fs p = true) ∧
      (∀ p, selOpt = some p → p ∈ cleaned → p ≠ out → (p ≠ scr ∧ p ≠ out)) ∧
      (keep = false →
        (out ∈ cleaned ↔ (existsF fs out && isWithin out scr.dropLast) = true)) ∧
      (∀ p, p ∉ cleaned → getFile fs2 p = getFile fs p) := by
  by_cases hkeep : keep = true
  · subst hkeep
    refine ⟨fs, [], ?_, fun _ => ⟨rfl, rfl⟩, by simp, by simp, by simp,
      fun p _ => rfl⟩
    unfold cleanup_artifacts
    rw [if_pos rfl]
  · have hkf : keep = false := by
      cases keep
      · rfl
      · exact absurd rfl hkeep
    subst hkf
    have hlock1 : ∀ q, (removeFile fs q).locked = [] := fun q => hlock
    by_cases hc1 : (existsF fs out && isWithin out scr.dropLast) = true
    · have hstep1 := cleanup_step_candidate_props fs out scr.dropLast hlock hc1
      have hmain : cleanup_artifacts fs out selOpt scr false =
          cleanup_step_selection (removeFile fs out) [out] selOpt out scr
            scr.dropLast := by
        unfold cleanup_artifacts
        rw [if_neg (by simp), hstep1]
      cases hso : selOpt with
      | none =>
          rw [hso] at hmain
          refine ⟨removeFile fs out, [out], ?_, by simp, ?_, ?_, ?_, ?_⟩
          · rw [hmain]
            rfl
          · intro p hp
            simp only [List.mem_singleton] at hp
            subst hp
            simp only [Bool.and_eq_true] at hc1
            exact ⟨Or.inl rfl, hc1.2, hc1.1⟩
          · intro p hpsel
            rw [hso] at hso
            simp at hpsel
          · intro _
            exact ⟨fun _ => hc1, fun _ => List.mem_singleton.mpr rfl⟩
          · intro p hp
            simp only [List.mem_singleton] at hp
            exact getFile_removeFile_ne fs out p hp
      | some sp =>
          rw [hso] at hmain
          by_cases hc2 : (existsF (removeFile fs out) sp &&
              isWithin sp scr.dropLast &&
              decide (sp ≠ scr) && decide (sp ≠ out)) = true
          · have hc2' := hc2
            simp only [Bool.and_eq_true, decide_eq_true_eq] at hc2'
            refine ⟨removeFile (removeFile fs out) sp, [out, sp], ?_, by simp,
              ?_, ?_, ?_, ?_⟩
            · rw [hmain]
              show (if (existsF (removeFile fs out) sp &&
                  isWithin sp scr.dropLast &&
                  decide (sp ≠ scr) && decide (sp ≠ out)) = true then
                  (unlinkF (removeFile fs out) sp).map
                    (fun fs2 => (fs2, [out] ++ [sp]))
                else Except.ok (removeFile fs out, [out])) = _
              rw [if_pos hc2]
              unfold unlinkF
              rw [hlock1 out]
              simp [Except.map]
            · intro p hp
              simp only [List.mem_cons, List.mem_singleton,
                List.not_mem_nil, or_false] at hp
              cases hp with
              | inl h =>
                  subst h
                  simp only [Bool.and_eq_true] at hc1
                  exact ⟨Or.inl rfl, hc1.2, hc1.1⟩
              | inr h =>
                  subst h
                  exact ⟨Or.inr rfl, hc2'.1.1.2,
                    existsF_removeFile_true fs out p hc2'.1.1.1⟩
            · intro p hpsel hpmem hpne
              have hps : p = sp := by
                injection hpsel.symm
              subst hps
              exact ⟨hc2'.1.2, hc2'.2⟩
            · intro _
              exact ⟨fun _ => hc1, fun _ => List.mem_cons_self _ _⟩
            · intro p hp
              simp only [List.mem_cons, List.mem_singleton, not_or] at hp
              rw [getFile_removeFile_ne (removeFile fs out) sp p hp.2.1,
                getFile_removeFile_ne fs out p hp.1]
          · refine ⟨removeFile fs out, [out], ?_, by simp, ?_, ?_, ?_, ?_⟩
            · rw [hmain]
              show (if (existsF (removeFile fs out) sp &&
                  isWithin sp scr.dropLast &&
                  decide (sp ≠ scr) && decide (sp ≠ out)) = true then
                  (unlinkF (removeFile fs out) sp).map
                    (fun fs2 => (fs2, [out] ++ [sp]))
                else Except.ok (removeFile fs out, [out])) = _
              rw [if_neg hc2]
            · intro p hp
              simp only [List.mem_singleton] at hp
              subst hp
              simp only [Bool.and_eq_true] at hc1
              exact ⟨Or.inl rfl, hc1.2, hc1.1⟩
            · intro p hpsel hpmem hpne
              simp only [List.mem_singleton] at hpmem
              exact absurd hpmem hpne
            · intro _
              exact ⟨fun _ => hc1, fun _ => List.mem_singleton.mpr rfl⟩
            · intro p hp
              simp only [List.mem_singleton] at hp
              exact getFile_removeFile_ne fs out p hp
    · have hc1f : (existsF fs out && isWithin out scr.dropLast) = false := by
        cases h : (existsF fs out && isWithin out scr.dropLast)
        · rfl
        · exact absurd h hc1
      have hstep1 := cleanup_step_candidate_skip fs out scr.dropLast hc1f
      have hmain : cleanup_artifacts fs out selOpt scr false =
          cleanup_step_selection fs [] selOpt out scr scr.dropLast := by
        unfold cleanup_artifacts
        rw [if_neg (by simp), hstep1]
      cases hso : selOpt with
      | none =>
          rw [hso] at hmain
          refine ⟨fs, [], ?_, by simp, by simp, by simp, ?_, fun p _ => rfl⟩
          · rw [hmain]
            rfl
          · intro _
            exact ⟨fun h => by simp at h, fun h => absurd h hc1⟩
      | some sp =>
          rw [hso] at hmain
          by_cases hc2 : (existsF fs sp && isWithin sp scr.dropLast &&
              decide (sp ≠ scr) && decide (sp ≠ out)) = true
          · have hc2' := hc2
            simp only [Bool.and_eq_true, decide_eq_true_eq] at hc2'
            refine ⟨removeFile fs sp, [sp], ?_, by simp, ?_, ?_, ?_, ?_⟩
            · rw [hmain]
              show (if (existsF fs sp && isWithin sp scr.dropLast &&
                  decide (sp ≠ scr) && decide (sp ≠ out)) = true then
                  (unlinkF fs sp).map (fun fs2 => (fs2, [] ++ [sp]))
                else Except.ok (fs, [])) = _
              rw [if_pos hc2]
              unfold unlinkF
              rw [hlock]
              simp [Except.map]
            · intro p hp
              simp only [List.mem_singleton] at hp
              subst hp
              exact ⟨Or.inr rfl, hc2'.1.1.2, hc2'.1.1.1⟩
            · intro p hpsel hpmem hpne
              have hps : p = sp := by
                injection hpsel.symm
              subst hps
              exact ⟨hc2'.1.2, hc2'.2⟩
            · intro _
              constructor
              · intro hmem
                simp only [List.mem_singleton] at hmem
                subst hmem
                exact absurd rfl hc2'.2
              · intro h
                exact absurd h hc1
            · intro p hp
              simp only [List.mem_singleton] at hp
              exact getFile_removeFile_ne fs sp p hp
          · refine ⟨fs, [], ?_, by simp, by simp, by simp, ?_, fun p _ => rfl⟩
            · rw [hmain]
              show (if (existsF fs sp && isWithin sp scr.dropLast &&
                  decide (sp ≠ scr) && decide (sp ≠ out)) = true then
                  (unlinkF fs sp).map (fun fs2 => (fs2, [] ++ [sp]))
                else Except.ok (fs, [])) = _
              rw [if_neg hc2]
            · intro _
              exact ⟨fun h => by simp at h, fun h => absurd h hc1⟩

/-- C9 witness: concrete cleanup where the opt-out is not set. -/
theorem c9_cleanup_scope_witness :
    ∃ fs2 cleaned,
      cleanup_artifacts
          (⟨[(["d", "finviz-candidates.json"], [FileLine.blank])], []⟩ : FS)
          ["d", "finviz-candidates.json"] none
          ["d", "screener-results.jsonl"] false =
        Except.ok (fs2, cleaned) ∧ ["d", "finviz-candidates.json"] ∈ cleaned := by
  obtain ⟨fs2, cleaned, hok, _, _, _, hiff, _⟩ :=
    c9_cleanup_scope
      (⟨[(["d", "finviz-candidates.json"], [FileLine.blank])], []⟩ : FS)
      ["d", "finviz-candidates.json"] ["d", "screener-results.jsonl"] none false
      rfl
  exact ⟨fs2, cleaned, hok, (hiff rfl).mpr (by decide)⟩

theorem clampTerm_nonneg (cap x : ℚ) : 0 ≤ clampTerm cap x :=
  le_max_left 0 _

theorem clampTerm_mono (cap : ℚ) {x y : ℚ} (h : x ≤ y) :
    clampTerm cap x ≤ clampTerm cap y :=
  max_le_max le_rfl (min_le_min le_rfl h)

theorem peStyleTerm_nonneg (points maxPe : ℚ) (v : Option ℚ) :
    0 ≤ peStyleTerm points maxPe v := by
  cases v with
  | none => exact le_refl 0
  | some p => exact clampTerm_nonneg _ _

theorem pbTerm_nonneg (v : Option ℚ) : 0 ≤ pbTerm v := by
  cases v with
  | none => exact le_refl 0
  | some p => exact clampTerm_nonneg _ _

theorem refTerm_nonneg (cap ref : ℚ) (v : Option ℚ) : 0 ≤ refTerm cap ref v := by
  cases v with
  | none => exact le_refl 0
  | some p => exact clampTerm_nonneg _ _

theorem debtTerm_nonneg (maxDe : ℚ) (v : Option ℚ) : 0 ≤ debtTerm maxDe v := by
  cases v with
  | none => exact le_refl 0
  | some d =>
      show 0 ≤ if maxDe ≤ 0 then 0 else 5 * clampTerm 1 (1 - d / maxDe)
      by_cases h : maxDe ≤ 0
      · rw [if_pos h]
      · rw [if_neg h]
        exact mul_nonneg (by norm_num) (clampTerm_nonneg _ _)

theorem growthTerm_nonneg (v : Option ℚ) : 0 ≤ growthTerm v := by
  cases v with
  | none => exact le_refl 0
  | some g => exact clampTerm_nonneg _ _

theorem round2_nonneg {q : ℚ} (h : 0 ≤ q) : 0 ≤ round2 q := by
  unfold round2
  apply div_nonneg _ (by norm_num)
  have hfloor : (0 : ℤ) ≤ ⌊q * 100 + 1 / 2⌋ := by
    rw [Int.le_floor]
    push_cast
    nlinarith
  exact_mod_cast hfloor

theorem round2_mono {q1 q2 : ℚ} (h : q1 ≤ q2) : round2 q1 ≤ round2 q2 := by
  unfold round2
  apply div_le_div_of_nonneg_right ?_ (by norm_num)
  exact_mod_cast Int.floor_mono (by nlinarith)

/-- C2: the scoring engine is non-negative, rounded to two decimal places,
deterministic, monotone in ROE with the other metrics fixed, and a P/E equal
to `max_pe` contributes exactly 0 to the value sub-score. -/
theorem c2_scoring_engine (m : ScoreMetrics) (maxPe maxDe : ℚ) :
    0 ≤ score m maxPe maxDe ∧
    (∃ k : ℤ, score m maxPe maxDe = (k : ℚ) / 100) ∧
    (∀ m2, m = m2 → score m maxPe maxDe = score m2 maxPe maxDe) ∧
    (∀ r1 r2 : ℚ, r1 ≤ r2 →
      score { m with roePct := some r1 } maxPe maxDe ≤
        score { m with roePct := some r2 } maxPe maxDe) ∧
    peStyleTerm 40 maxPe (some maxPe) = 0 ∧
    valueSubscore { m with pe := some maxPe } maxPe =
      valueSubscore { m with pe := none } maxPe := by
  have hpe0 : peStyleTerm 40 maxPe (some maxPe) = 0 := by
    show clampTerm 40 (40 * ((maxPe - maxPe) / maxPe)) = 0
    unfold clampTerm
    rw [sub_self, zero_div, mul_zero]
    simp
  refine ⟨?_, ⟨⌊(valueSubscore m maxPe + qualitySubscore m maxDe +
      growthTerm m.epsNext5yPct) * 100 + 1 / 2⌋, rfl⟩,
    fun m2 h => by rw [h], ?_, hpe0, ?_⟩
  · apply round2_nonneg
    have h1 := peStyleTerm_nonneg 40 maxPe m.pe
    have h2 := peStyleTerm_nonneg 20 maxPe m.forwardPe
    have h3 := pbTerm_nonneg m.priceToBook
    have h4 := refTerm_nonneg 10 30 m.roePct
    have h5 := refTerm_nonneg 10 25 m.roicPct
    have h6 := refTerm_nonneg 10 25 m.operMarginPct
    have h7 := refTerm_nonneg 5 20 m.profitMarginPct
    have h8 := debtTerm_nonneg maxDe m.debtToEquity
    have h9 := growthTerm_nonneg m.epsNext5yPct
    unfold valueSubscore qualitySubscore
    linarith
  · intro r1 r2 hr
    apply round2_mono
    have hroe : refTerm 10 30 (some r1) ≤ refTerm 10 30 (some r2) := by
      unfold refTerm
      apply clampTerm_mono
      have hd : r1 / 30 ≤ r2 / 30 :=
        (div_le_div_right (by norm_num : (0 : ℚ) < 30)).mpr hr
      exact mul_le_mul_of_nonneg_left hd (by norm_num)
    have hq1 : qualitySubscore { m with roePct := some r1 } maxDe =
        refTerm 10 30 (some r1) + refTerm 10 25 m.roicPct +
          refTerm 10 25 m.operMarginPct + refTerm 5 20 m.profitMarginPct +
          debtTerm maxDe m.debtToEquity := rfl
    have hq2 : qualitySubscore { m with roePct := some r2 } maxDe =
        refTerm 10 30 (some r2) + refTerm 10 25 m.roicPct +
          refTerm 10 25 m.operMarginPct + refTerm 5 20 m.profitMarginPct +
          debtTerm maxDe m.debtToEquity := rfl
    have hv1 : valueSubscore { m with roePct := some r1 } maxPe =
        valueSubscore m maxPe := rfl
    have hv2 : valueSubscore { m with roePct := some r2 } maxPe =
        valueSubscore m maxPe := rfl
    rw [hq1, hq2, hv1, hv2]
    have hg : growthTerm ({ m with roePct := some r1 } : ScoreMetrics).epsNext5yPct =
        growthTerm ({ m with roePct := some r2 } : ScoreMetrics).epsNext5yPct := rfl
    rw [hg]
    linarith
  · show peStyleTerm 40 maxPe (some maxPe) + peStyleTerm 20 maxPe m.forwardPe +
        pbTerm m.priceToBook =
      peStyleTerm 40 maxPe none + peStyleTerm 20 maxPe m.forwardPe +
        pbTerm m.priceToBook
    rw [hpe0]
    rfl

/-- C2 witness: monotonicity in ROE applied at concrete inputs. -/
theorem c2_scoring_engine_witness :
    score ⟨none, none, none, some 1, none, none, none, none, none⟩ 25 1 ≤
      score ⟨none, none, none, some 2, none, none, none, none, none⟩ 25 1 :=
  (c2_scoring_engine ⟨none, none, none, none, none, none, none, none, none⟩
    25 1).2.2.2.1 1 2 (by decide)

/-- C5: with preferences disabled both checks are skipped unconditionally;
with preferences enabled, a configured market missing from the allow-list
fails the whole run with one run-level error independent of the candidate
list, and otherwise exactly the candidates satisfying the sector/industry
policy are kept. -/
theorem c5_preference_filter (prefs : UserPreferences) (market : String)
    (candidates : List Candidate) :
    preference_filter true prefs market candidates = Except.ok candidates ∧
    (prefs.allowedMarkets.contains market = false →
      preference_filter false prefs market candidates =
        Except.error ("market not allowed: " ++ market)) ∧
    (prefs.allowedMarkets.contains market = true →
      ∃ kept, preference_filter false prefs market candidates =
          Except.ok kept ∧
        ∀ c, c ∈ kept ↔ (c ∈ candidates ∧
          prefs.sectorIndustryOk c.sector c.industry = true)) := by
  refine ⟨rfl, ?_, ?_⟩
  · intro h
    unfold preference_filter
    rw [if_neg (by simp), if_pos (by rw [h])]
  · intro h
    refine ⟨candidates.filter (fun c => prefs.sectorIndustryOk c.sector c.industry),
      ?_, ?_⟩
    · unfold preference_filter
      rw [if_neg (by simp), if_neg (by rw [h]; simp)]
    · intro c
      exact List.mem_filter

/-- C5 witness: the disallowed-market rule at concrete values. -/
theorem c5_preference_filter_witness :
    preference_filter false ⟨["jp"], fun _ _ => true⟩ "us" [] =
      Except.error ("market not allowed: " ++ "us") :=
  (c5_preference_filter ⟨["jp"], fun _ _ => true⟩ "us" []).2.1 (by decide)

theorem mem_fetchEventsOf (oracle : String → Nat → Nat → List Row) (n : Nat)
    (ev : Event) (hev : ev ∈ fetchEventsOf oracle n) :
    ∃ f v s, ev = Event.fetch f v s := by
  simp only [fetchEventsOf, List.mem_flatMap, List.mem_map] at hev
  obtain ⟨ex, _, vr, _, rfl⟩ := hev
  exact ⟨ex.2, vr.1, vr.2, rfl⟩

/-- C4: a run whose output path encodes the malformed run id "oops" aborts
with the run-id validation error, yet its trace already holds a fetch: the
validation failure did NOT precede network activity, refuting the claim as
stated. -/
theorem c4_counterexample :
    (mainModel c4Args emptyOracle "2024-01-02-030405" ["data"]
        (⟨[], []⟩ : FS)).2 =
      Except.error ("Invalid path idea-screens/oops/finviz-candidates.json: " ++
        "oops. Expected format YYYY-MM-DD-HHMMSS.") ∧
    Event.fetch "exch_nasd" 111 1 ∈
      (mainModel c4Args emptyOracle "2024-01-02-030405" ["data"]
        (⟨[], []⟩ : FS)).1 := by
  exact ⟨rfl, by decide⟩

/-- C4 (amended): an argument-level validation failure (bad --limit,
--idea-limit, --max-pages, malformed --screen-run-id, or --fetch-only with
--selection-json) aborts before any network activity or file mutation — the
trace is empty; but a run-identifier failure detected during path resolution
(malformed path-derived id, or argument/path conflict) aborts only AFTER the
fetch loop: the run still ends in the fatal error and no file is written —
the trace holds network fetches only — but fetches were issued. -/
theorem c4_validation_abort (args : Args)
    (oracle : String → Nat → Nat → List Row) (fresh : String)
    (dataRoot : PathT) (fs : FS) :
    (∀ e, parse_args_check args = Except.error e →
        mainModel args oracle fresh dataRoot fs = ([], Except.error e)) ∧
    (∀ e, parse_args_check args = Except.ok () →
        resolve_paths args dataRoot fresh = Except.error e →
        (mainModel args oracle fresh dataRoot fs).2 = Except.error e ∧
        ∀ ev ∈ (mainModel args oracle fresh dataRoot fs).1,
          ∃ f v s, ev = Event.fetch f v s) := by
  constructor
  · intro e h
    simp [mainModel, mainBeforeCleanup, h]
  · intro e hok hr
    have hmain : mainModel args oracle fresh dataRoot fs =
        (fetchEventsOf oracle args.maxPages, Except.error e) := by
      simp [mainModel, mainBeforeCleanup, hok, hr]
    rw [hmain]
    exact ⟨rfl, fun ev hev => mem_fetchEventsOf oracle args.maxPages ev hev⟩

theorem c4_validation_abort_witness :
    (mainModel { limit := 0 } emptyOracle "2024-01-02-030405" ["data"]
        (⟨[], []⟩ : FS) =
      ([], Except.error "--limit must be greater than 0.")) ∧
    ((mainModel c4Args emptyOracle "2024-01-02-030405" ["data"]
          (⟨[], []⟩ : FS)).2 =
        Except.error ("Invalid path idea-screens/oops/finviz-candidates.json" ++
          ": oops. Expected format YYYY-MM-DD-HHMMSS.") ∧
      ∀ ev ∈ (mainModel c4Args emptyOracle "2024-01-02-030405" ["data"]
          (⟨[], []⟩ : FS)).1,
        ∃ f v s, ev = Event.fetch f v s) :=
  ⟨(c4_validation_abort { limit := 0 } emptyOracle "2024-01-02-030405" ["data"]
      ⟨[], []⟩).1 _ (by decide),
   (c4_validation_abort c4Args emptyOracle "2024-01-02-030405" ["data"]
      ⟨[], []⟩).2 _ (by decide) (by decide)⟩

theorem locked_removeFile (fs : FS) (p : PathT) :
    (removeFile fs p).locked = fs.locked := rfl

theorem unlinkF_ok (fs : FS) (p : PathT) (h : fs.locked = []) :
    unlinkF fs p = Except.ok (removeFile fs p) := by
  simp [unlinkF, h]

theorem cleanup_step_candidate_ok (fs : FS) (out runDir : PathT)
    (h : fs.locked = []) :
    ∃ r, cleanup_step_candidate fs out runDir = Except.ok r ∧
      r.1.locked = [] := by
  unfold cleanup_step_candidate
  split
  · rw [unlinkF_ok fs out h]
    exact ⟨(removeFile fs out, [out]), rfl, h ▸ locked_removeFile fs out⟩
  · exact ⟨(fs, []), rfl, h⟩

theorem cleanup_step_selection_ok (fs1 : FS) (cleaned1 : List PathT)
    (selOpt : Option PathT) (out scr runDir : PathT) (h : fs1.locked = []) :
    ∃ r, cleanup_step_selection fs1 cleaned1 selOpt out scr runDir =
      Except.ok r := by
  cases selOpt with
  | none => exact ⟨(fs1, cleaned1), rfl⟩
  | some p =>
      show ∃ r, (if existsF fs1 p && isWithin p runDir &&
            decide (p ≠ scr) && decide (p ≠ out) then
          (unlinkF fs1 p).map (fun fs2 => (fs2, cleaned1 ++ [p]))
        else Except.ok (fs1, cleaned1)) = Except.ok r
      split
      · rw [unlinkF_ok fs1 p h]
        exact ⟨_, rfl⟩
      · exact ⟨_, rfl⟩

theorem cleanup_artifacts_ok_of_unlocked (fs : FS) (out : PathT)
    (sel : Option PathT) (scr : PathT) (keep : Bool) (h : fs.locked = []) :
    ∃ r, cleanup_artifacts fs out sel scr keep = Except.ok r := by
  unfold cleanup_artifacts
  split
  · exact ⟨_, rfl⟩
  · obtain ⟨⟨fs1, cleaned1⟩, hr1, hl1⟩ :=
      cleanup_step_candidate_ok fs out scr.dropLast h
    rw [hr1]
    exact cleanup_step_selection_ok fs1 cleaned1 sel out scr scr.dropLast hl1

/-- C10 counterexample: the append succeeds in both runs, but on a filesystem
where the OS refuses to delete the snapshot (file in use), the default run
exits with the unlink error — the append success signal is masked and the
exit code changes — while the identical run with --keep-artifacts succeeds
and reports appended count 1. -/
theorem c10_counterexample :
    (mainModel c10Args oneRowOracle "x" ["data"] c10FS).2 =
      Except.error ("unlink failed: " ++
        "data/idea-screens/2024-01-02-030405/finviz-candidates.json") ∧
    (mainModel { c10Args with keepArtifacts := true } oneRowOracle "x"
        ["data"] c10FS).2.map (fun p => p.2.appendedCount) =
      Except.ok (some 1) := by
  exact ⟨rfl, rfl⟩

/-- C10 (amended): deletion failure is non-fatal only in the already-removed
sense. When the OS permits every deletion (nothing locked at cleanup time),
a run that reaches the append reports the append count with exit code 0;
and artifacts that are already removed are skipped without an unlink, so
cleanup succeeds with nothing cleaned. But an unlink the OS refuses is not
caught (no try/except around `unlink`), so it masks the append success and
changes the exit code. -/
theorem c10_cleanup_nonfatal (args : Args)
    (oracle : String → Nat → Nat → List Row) (fresh : String)
    (dataRoot : PathT) (fs : FS) (evs : List Event) (st : RunState)
    (hlock : st.fs.locked = [])
    (hready : mainBeforeCleanup args oracle fresh dataRoot fs =
      (evs, BeforeResult.ready st)) :
    ((mainModel args oracle fresh dataRoot fs).2.map
        (fun p => p.2.appendedCount) = Except.ok (some st.appendedCount)) ∧
    (∀ (fsx : FS) (out scr : PathT) (sel : Option PathT),
        existsF fsx out = false →
        (∀ p, sel = some p → existsF fsx p = false) →
        cleanup_artifacts fsx out sel scr false = Except.ok (fsx, [])) := by
  constructor
  · obtain ⟨⟨fs2, cleaned⟩, hok⟩ :=
      cleanup_artifacts_ok_of_unlocked st.fs st.outPath st.selPath st.scrPath
        args.keepArtifacts hlock
    simp [mainModel, hready, hok, Except.map]
  · intro fsx out scr sel hout hsel
    cases sel with
    | none =>
        simp [cleanup_artifacts, cleanup_step_candidate,
          cleanup_step_selection, hout]
    | some p =>
        simp [cleanup_artifacts, cleanup_step_candidate,
          cleanup_step_selection, hout, hsel p rfl]

theorem c10_cleanup_nonfatal_witness :
    ((mainModel c10Args oneRowOracle "x" ["data"] (⟨[], []⟩ : FS)).2.map
        (fun p => p.2.appendedCount) = Except.ok (some c10St.appendedCount)) ∧
    (∀ (fsx : FS) (out scr : PathT) (sel : Option PathT),
        existsF fsx out = false →
        (∀ p, sel = some p → existsF fsx p = false) →
        cleanup_artifacts fsx out sel scr false = Except.ok (fsx, [])) :=
  c10_cleanup_nonfatal c10Args oneRowOracle "x" ["data"] ⟨[], []⟩ c10Evs c10St
    rfl (by rfl)

end FetchIdeas
